import Mathlib

/-!
Verification of the SubConfigModifier worker scripts.

The repository contains two revisions of a Cloudflare Worker
(`src/worker.js` and `src/unnamed/part_000`) that aggregate proxy
subscription configuration lines.  This file gives a shallow embedding of
the algorithmic core of both revisions (base64 sniffing and decoding,
UTF-8 handling, the JSON → `ss://` conversion, the recognizer of protocol
scheme prefixes, the `ssconf://` rewrite, the breadth-first crawler with
its visited set and depth bound, the Cloudflare edge-domain classifier,
and the quota allocator described by the specification) together with
theorems settling the frozen claims about them.

Embedding conventions:
* JS strings are Lean `String`s manipulated through their `List Char`
  representation; JS byte strings are `List Nat` with every element
  `< 256`.
* Fallible platform primitives (`atob`, `decodeURIComponent`,
  `JSON.parse`, `new URL`) are modelled as `Option`-returning functions.
* The crawler's network access is an oracle `String → Option String`
  (`none` models both a thrown network error and a non-ok response, which
  the code treats identically), and its loop is driven by explicit fuel.
-/

namespace SubCfg

/-! ## Character and string helpers -/

/-- ASCII lower-casing, as performed by a case-insensitive JS regex over
ASCII patterns (non-ASCII characters are left unchanged). -/
def lowerChar (c : Char) : Char :=
  if 'A' ≤ c ∧ c ≤ 'Z' then Char.ofNat (c.toNat + 32) else c

/-- Whitespace stripped by JS `String.prototype.trim`. -/
def isJsWs (c : Char) : Bool :=
  c = ' ' || c = '\t' || c = '\n' || c = '\r' ||
  c.toNat = 11 || c.toNat = 12 || c.toNat = 0xA0 || c.toNat = 0xFEFF

/-- Model of JS `String.prototype.trim` on the character list. -/
def jsTrimList (l : List Char) : List Char :=
  ((l.dropWhile isJsWs).reverse.dropWhile isJsWs).reverse

/-- Model of JS `String.prototype.trim`. -/
def jsTrim (s : String) : String := String.mk (jsTrimList s.data)

/-- Exact list starts-with test. -/
def startsWithList (l pat : List Char) : Bool :=
  match pat, l with
  | [], _ => true
  | _ :: _, [] => false
  | p :: ps, c :: cs => c = p && startsWithList cs ps

/-- Case-insensitive starts-with test; the pattern is given already in
lower case.  Models `str.match(/^pat/i)` for an ASCII pattern. -/
def startsWithLower (l pat : List Char) : Bool :=
  match pat, l with
  | [], _ => true
  | _ :: _, [] => false
  | p :: ps, c :: cs => lowerChar c = p && startsWithLower cs ps

/-- Exact substring containment, modelling JS `String.prototype.includes`. -/
def containsList (hay pat : List Char) : Bool :=
  hay.tails.any (fun t => startsWithList t pat)

/-- Model of JS `hay.includes(pat)`. -/
def jsIncludes (hay pat : String) : Bool := containsList hay.data pat.data

/-- Exact suffix test on lists. -/
def endsWithList (hay pat : List Char) : Bool :=
  startsWithList hay.reverse pat.reverse

/-- Model of JS `hay.endsWith(pat)`. -/
def jsEndsWith (hay pat : String) : Bool := endsWithList hay.data pat.data

/-- Split a character list at every occurrence of `sep`, keeping empty
segments, as JS `String.prototype.split` with a single-character
separator does. -/
def splitOnCharAux (sep : Char) : List Char → List Char → List (List Char)
  | [], acc => [acc.reverse]
  | c :: rest, acc =>
    if c = sep then acc.reverse :: splitOnCharAux sep rest []
    else splitOnCharAux sep rest (c :: acc)

/-- Model of JS `s.split(sep)` for a one-character separator. -/
def jsSplitChar (s : String) (sep : Char) : List String :=
  (splitOnCharAux sep s.data []).map String.mk

/-- Fuel-driven scanner for `replaceAllList`; every step consumes at
least one character, so fuel `length` always suffices. -/
def replaceAllListAux (pat repl : List Char) : Nat → List Char → List Char
  | 0, l => l
  | _ + 1, [] => []
  | fuel + 1, c :: rest =>
    if pat.length ≠ 0 ∧ startsWithList (c :: rest) pat then
      repl ++ replaceAllListAux pat repl fuel ((c :: rest).drop pat.length)
    else
      c :: replaceAllListAux pat repl fuel rest

/-- Replace every occurrence of the exact pattern `pat` (non-empty) by
`repl`, scanning left to right without overlap: the semantics of JS
`String.prototype.replace` with a global literal regex. -/
def replaceAllList (pat repl l : List Char) : List Char :=
  replaceAllListAux pat repl l.length l

/-- Fuel-driven scanner for `replaceAllCIList`. -/
def replaceAllCIListAux (pat repl : List Char) : Nat → List Char → List Char
  | 0, l => l
  | _ + 1, [] => []
  | fuel + 1, c :: rest =>
    if pat.length ≠ 0 ∧ startsWithLower (c :: rest) pat then
      repl ++ replaceAllCIListAux pat repl fuel ((c :: rest).drop pat.length)
    else
      c :: replaceAllCIListAux pat repl fuel rest

/-- Case-insensitive variant of `replaceAllList`: the pattern is given in
lower case and matched through `lowerChar`, the semantics of a global
case-insensitive literal regex such as `/Ssconf:\/\//gi`. -/
def replaceAllCIList (pat repl l : List Char) : List Char :=
  replaceAllCIListAux pat repl l.length l

/-! ## Base64 (models of `atob` / `btoa`) -/

/-- The standard base64 alphabet, in value order. -/
def b64Chars : List Char :=
  "ABCDEFGHIJKLMNOPQRSTUVWXYZabcdefghijklmnopqrstuvwxyz0123456789+/".data

/-- Character for a sextet value. -/
def b64Char (n : Nat) : Char := b64Chars.getD n '?'

/-- Position of a character in a list, from a starting index. -/
def b64IndexAux (c : Char) : List Char → Nat → Option Nat
  | [], _ => none
  | x :: xs, i => if x = c then some i else b64IndexAux c xs (i + 1)

/-- Sextet value of an alphabet character. -/
def b64Val (c : Char) : Option Nat := b64IndexAux c b64Chars 0

/-- Whitespace removed by the WHATWG forgiving-base64 decoder used by
`atob`. -/
def isB64Ws (c : Char) : Bool :=
  c.toNat = 9 || c.toNat = 10 || c.toNat = 12 || c.toNat = 13 || c.toNat = 32

/-- The sextet list of a byte list (no padding). -/
def b64sextets : List Nat → List Nat
  | a :: b :: c :: rest =>
    a / 4 :: ((a % 4) * 16 + b / 16) :: ((b % 16) * 4 + c / 64) :: c % 64 ::
      b64sextets rest
  | [a, b] => [a / 4, (a % 4) * 16 + b / 16, (b % 16) * 4]
  | [a] => [a / 4, (a % 4) * 16]
  | [] => []

/-- Padding characters appended by `btoa` for a given input length. -/
def b64pad (len : Nat) : List Char :=
  if len % 3 = 1 then ['=', '=']
  else if len % 3 = 2 then ['=']
  else []

/-- Model of `btoa` on a byte list: canonical base64 with padding. -/
def b64encodeBytes (bs : List Nat) : List Char :=
  (b64sextets bs).map b64Char ++ b64pad bs.length

/-- Reassemble bytes from a validated sextet list (remainder handling of
the forgiving decoder: leftover bits are discarded). -/
def b64decodeSextets : List Nat → List Nat
  | a :: b :: c :: d :: rest =>
    (a * 4 + b / 16) :: ((b % 16) * 16 + c / 4) :: ((c % 4) * 64 + d) ::
      b64decodeSextets rest
  | [a, b, c] => [a * 4 + b / 16, (b % 16) * 16 + c / 4]
  | [a, b] => [a * 4 + b / 16]
  | _ => []

/-- Remove one or two trailing `=` characters. -/
def stripTrailingEq (l : List Char) : List Char :=
  match l.reverse with
  | '=' :: '=' :: rest => rest.reverse
  | '=' :: rest => rest.reverse
  | _ => l

/-- Validation and decoding of the cleaned-up (whitespace- and
padding-free) base64 text. -/
def atobCore (t : List Char) : Option (List Nat) :=
  if t.length % 4 = 1 then none
  else if t.all (fun c => c ∈ b64Chars) then
    some (b64decodeSextets (t.map (fun c => (b64Val c).getD 0)))
  else none

/-- Model of `atob`: the WHATWG forgiving-base64 decoder — remove ASCII
whitespace, strip up to two trailing `=` when the length is a multiple
of four, validate and decode.  `none` models the thrown
`InvalidCharacterError`. -/
def atobBytes (s : List Char) : Option (List Nat) :=
  let t := s.filter (fun c => !isB64Ws c)
  atobCore (if t.length % 4 = 0 then stripTrailingEq t else t)

/-! ## UTF-8

`unescape(encodeURIComponent(s))` turns a JS string into its UTF-8 bytes
(held in a binary string) and `decodeURIComponent(escape(b))` inverts
that, throwing `URIError` on invalid UTF-8; we model the two compositions
as UTF-8 encoding and strict UTF-8 decoding of byte lists. -/

/-- UTF-8 bytes of a single scalar value. -/
def utf8EncodeChar (n : Nat) : List Nat :=
  if n < 0x80 then [n]
  else if n < 0x800 then [0xC0 + n / 64, 0x80 + n % 64]
  else if n < 0x10000 then
    [0xE0 + n / 4096, 0x80 + n / 64 % 64, 0x80 + n % 64]
  else
    [0xF0 + n / 262144, 0x80 + n / 4096 % 64, 0x80 + n / 64 % 64,
     0x80 + n % 64]

/-- UTF-8 bytes of a character list. -/
def utf8Encode : List Char → List Nat
  | [] => []
  | c :: cs => utf8EncodeChar c.toNat ++ utf8Encode cs

/-- A UTF-8 continuation byte. -/
def isCont (b : Nat) : Bool := 0x80 ≤ b && b ≤ 0xBF

/-- Strict UTF-8 decoding: rejects overlong forms, surrogates and values
above `0x10FFFF`, exactly as the ECMAScript `Decode` operation used by
`decodeURIComponent` does. -/
def utf8DecodeSt : List Nat → Option (Nat × Nat × Nat × Nat) → Option (List Char)
  | [], none => some []
  | [], some _ => none
  | b :: rest, none =>
    if b < 0x80 then (utf8DecodeSt rest none).map (Char.ofNat b :: ·)
    else if 0xC2 ≤ b && b ≤ 0xDF then
      utf8DecodeSt rest (some (b - 0xC0, 1, 0x80, 0xBF))
    else if 0xE0 ≤ b && b ≤ 0xEF then
      utf8DecodeSt rest (some (b - 0xE0, 2,
        if b = 0xE0 then 0xA0 else 0x80, if b = 0xED then 0x9F else 0xBF))
    else if 0xF0 ≤ b && b ≤ 0xF4 then
      utf8DecodeSt rest (some (b - 0xF0, 3,
        if b = 0xF0 then 0x90 else 0x80, if b = 0xF4 then 0x8F else 0xBF))
    else none
  | b :: rest, some (cp, k, lo, hi) =>
    if lo ≤ b && b ≤ hi then
      if k ≤ 1 then
        (utf8DecodeSt rest none).map (Char.ofNat (cp * 64 + (b - 0x80)) :: ·)
      else utf8DecodeSt rest (some (cp * 64 + (b - 0x80), k - 1, 0x80, 0xBF))
    else none

def utf8Decode (l : List Nat) : Option (List Char) :=
  utf8DecodeSt l none

/-! ## The JS base64 helpers of the two revisions -/

/-- `js_encodeBase64` (both revisions):
`btoa(unescape(encodeURIComponent(s)))`. -/
def js_encodeBase64 (s : String) : String :=
  String.mk (b64encodeBytes (utf8Encode s.data))

/-- `js_isBase64` of `src/worker.js`: trim, reject the empty string, pad
to a multiple of four with `=`, and test whether `atob` succeeds. -/
def js_isBase64_w (s : String) : Bool :=
  let t := jsTrimList s.data
  if t = [] then false
  else
    let p := if t.length % 4 ≠ 0 then t ++ List.replicate (4 - t.length % 4) '=' else t
    (atobBytes p).isSome

/-- `js_isBase64` of `src/unnamed/part_000`: trim, reject the empty
string, and test `btoa(atob(s)) === s` (round-trip-exact variant). -/
def js_isBase64_p (s : String) : Bool :=
  let t := jsTrimList s.data
  if t = [] then false
  else
    match atobBytes t with
    | some bs => b64encodeBytes bs = t
    | none => false

/-- `js_decodeBase64` of `src/worker.js`: pad to a multiple of four, then
`decodeURIComponent(escape(atob(s)))`.  `none` models a thrown error. -/
def js_decodeBase64_w (s : String) : Option String :=
  let t := s.data
  let p := if t.length % 4 ≠ 0 then t ++ List.replicate (4 - t.length % 4) '=' else t
  match atobBytes p with
  | some bs => (utf8Decode bs).map String.mk
  | none => none

/-- `js_decodeBase64` of `src/unnamed/part_000`: map the URL-safe
alphabet (`-` → `+`, `_` → `/`) and then
`decodeURIComponent(escape(atob(s)))`. -/
def js_decodeBase64_p (s : String) : Option String :=
  let t := (s.data.map (fun c => if c = '-' then '+' else c)).map
    (fun c => if c = '_' then '/' else c)
  match atobBytes t with
  | some bs => (utf8Decode bs).map String.mk
  | none => none

/-! ## Percent coding (`encodeURIComponent`, `decodeURIComponent`) -/

/-- Value of a hexadecimal digit. -/
def hexVal (c : Char) : Option Nat :=
  if '0' ≤ c ∧ c ≤ '9' then some (c.toNat - '0'.toNat)
  else if 'a' ≤ c ∧ c ≤ 'f' then some (c.toNat - 'a'.toNat + 10)
  else if 'A' ≤ c ∧ c ≤ 'F' then some (c.toNat - 'A'.toNat + 10)
  else none

/-- Upper-case hexadecimal digit of a value `< 16`. -/
def hexChar (n : Nat) : Char := "0123456789ABCDEF".data.getD n '0'

/-- Characters `encodeURIComponent` leaves unescaped. -/
def isUriUnescaped (c : Char) : Bool :=
  ('A' ≤ c && c ≤ 'Z') || ('a' ≤ c && c ≤ 'z') || ('0' ≤ c && c ≤ '9') ||
  c = '-' || c = '_' || c = '.' || c = '!' || c = '~' || c = '*' ||
  c = '\'' || c = '(' || c = ')'

/-- Model of `encodeURIComponent`: unescaped characters pass through,
everything else becomes `%XX` over its UTF-8 bytes. -/
def encodeURIComponentStr (s : String) : String :=
  String.mk (s.data.foldr
    (fun c acc =>
      if isUriUnescaped c then c :: acc
      else (utf8EncodeChar c.toNat).foldr
        (fun b acc2 => '%' :: hexChar (b / 16) :: hexChar (b % 16) :: acc2) acc)
    [])

/-- Collect the maximal run of consecutive `%XX` escapes; `none` models a
`URIError` for a `%` not followed by two hexadecimal digits. -/
def pctRun : List Char → Option (List Nat × List Char)
  | '%' :: h1 :: h2 :: rest =>
    match hexVal h1, hexVal h2 with
    | some a, some b =>
      match pctRun rest with
      | some (bs, r) => some ((a * 16 + b) :: bs, r)
      | none => none
    | _, _ => none
  | '%' :: l => if l.length < 2 then none else none
  | l => some ([], l)

/-- Fuel-driven core of `decodeURIComponent`: literal characters pass
through, every maximal run of `%XX` escapes is decoded as strict UTF-8;
`none` models a thrown `URIError`.  Each step consumes at least one
character, so fuel `length + 1` always suffices. -/
def decodeURICAux : Nat → List Char → Option (List Char)
  | 0, _ => none
  | _ + 1, [] => some []
  | fuel + 1, '%' :: rest =>
    match pctRun ('%' :: rest) with
    | some (bs, r) =>
      match utf8Decode bs with
      | some cs =>
        match decodeURICAux fuel r with
        | some tail => some (cs ++ tail)
        | none => none
      | none => none
    | none => none
  | fuel + 1, c :: rest =>
    match decodeURICAux fuel rest with
    | some tail => some (c :: tail)
    | none => none

/-- Model of `decodeURIComponent` on strings. -/
def decodeURIComponentStr (s : String) : Option String :=
  (decodeURICAux (s.data.length + 1) s.data).map String.mk

/-! ## Lossy UTF-8 and `application/x-www-form-urlencoded` decoding
(the decoding performed by `URLSearchParams`, which never throws). -/

/-- Nominal length of the UTF-8 sequence led by a non-ASCII byte. -/
def utf8SeqLen (b : Nat) : Nat :=
  if b < 0xE0 then 2 else if b < 0xF0 then 3 else 4

/-- Fuel-driven core of `utf8DecodeLossy`; every step consumes at least
one byte, so fuel `length` always suffices. -/
def utf8DecodeLossyAux : Nat → List Nat → List Char
  | 0, _ => []
  | _ + 1, [] => []
  | fuel + 1, b :: rest =>
    match utf8Decode (b :: rest) with
    | some cs => cs
    | none =>
      if b < 0x80 then Char.ofNat b :: utf8DecodeLossyAux fuel rest
      else
        match utf8Decode (List.take (utf8SeqLen b) (b :: rest)) with
        | some cs =>
          cs ++ utf8DecodeLossyAux fuel (List.drop (utf8SeqLen b) (b :: rest))
        | none => '�' :: utf8DecodeLossyAux fuel rest

/-- Total UTF-8 decoding that replaces errors by U+FFFD (one replacement
per skipped byte; used only inside the `URLSearchParams` model). -/
def utf8DecodeLossy (l : List Nat) : List Char :=
  utf8DecodeLossyAux l.length l

/-- Hexadecimal value of a byte interpreted as an ASCII character. -/
def hexValByte (b : Nat) : Option Nat :=
  if 0x30 ≤ b ∧ b ≤ 0x39 then some (b - 0x30)
  else if 0x61 ≤ b ∧ b ≤ 0x66 then some (b - 0x61 + 10)
  else if 0x41 ≤ b ∧ b ≤ 0x46 then some (b - 0x41 + 10)
  else none

/-- Percent-decoding over bytes: a valid `%XX` becomes one byte, an
invalid escape is kept literally (the forgiving behaviour of
`URLSearchParams`, not the throwing `decodeURIComponent`). -/
def pctDecodeBytes : List Nat → List Nat
  | 0x25 :: b1 :: b2 :: rest =>
    match hexValByte b1, hexValByte b2 with
    | some a, some b => (a * 16 + b) :: pctDecodeBytes rest
    | _, _ => 0x25 :: pctDecodeBytes (b1 :: b2 :: rest)
  | b :: rest => b :: pctDecodeBytes rest
  | [] => []

/-- `application/x-www-form-urlencoded` decoding of one token:
`+` → space, then percent-decode, then lossy UTF-8. -/
def formDecode (l : List Char) : String :=
  String.mk (utf8DecodeLossy (pctDecodeBytes
    (utf8Encode (l.map (fun c => if c = '+' then ' ' else c)))))

/-- Split at the first occurrence of a character: `(before, some after)`
or `(l, none)` when absent. -/
def splitFirstAtChar (sep : Char) : List Char → List Char × Option (List Char)
  | [] => ([], none)
  | c :: rest =>
    if c = sep then ([], some rest)
    else
      let (b, a) := splitFirstAtChar sep rest
      (c :: b, a)

/-- Split at the last occurrence of a character. -/
def splitLastAtChar (sep : Char) (l : List Char) : Option (List Char × List Char) :=
  match splitFirstAtChar sep l.reverse with
  | (_, none) => none
  | (revAfter, some revBefore) => some (revBefore.reverse, revAfter.reverse)

/-- The name/value pairs of a query string, as `URLSearchParams` parses
it: strip one leading `?`, split on `&`, skip empty segments, split each
segment at its first `=`, and form-decode names and values. -/
def searchPairs (search : String) : List (String × String) :=
  let s := match search.data with
    | '?' :: rest => rest
    | l => l
  ((splitOnCharAux '&' s []).filter (· ≠ [])).map (fun seg =>
    match splitFirstAtChar '=' seg with
    | (name, none) => (formDecode name, "")
    | (name, some value) => (formDecode name, formDecode value))

/-- `URLSearchParams.getAll`. -/
def searchGetAll (search : String) (name : String) : List String :=
  ((searchPairs search).filter (fun p => p.1 = name)).map (fun p => p.2)

/-! ## A shallow model of WHATWG `new URL`

Restricted to URLs containing `://` (every URL the worker feeds to the
parser matches `^https?://`, `^[a-z0-9]+://` or is an `ssconf://` rewrite,
so this covers the code's uses); IPv6 host brackets are not modelled.
`none` models a thrown `TypeError`. -/

structure ParsedUrl where
  scheme : String
  userinfo : String
  hostname : String
  port : String
  pathname : String
  search : String
  hash : String
deriving Repr, DecidableEq

def isAsciiAlpha (c : Char) : Bool :=
  ('A' ≤ c && c ≤ 'Z') || ('a' ≤ c && c ≤ 'z')

def isAsciiDigit (c : Char) : Bool := '0' ≤ c && c ≤ '9'

def isSchemeRestChar (c : Char) : Bool :=
  isAsciiAlpha c || isAsciiDigit c || c = '+' || c = '-' || c = '.'

/-- Schemes the URL standard treats as special. -/
def specialSchemes : List String := ["http", "https", "ws", "wss", "ftp", "file"]

/-- Split at the first occurrence of an exact pattern. -/
def splitFirstOnList (pat : List Char) : List Char → Option (List Char × List Char)
  | [] => none
  | c :: rest =>
    if startsWithList (c :: rest) pat then some ([], (c :: rest).drop pat.length)
    else
      match splitFirstOnList pat rest with
      | some (b, a) => some (c :: b, a)
      | none => none

/-- Default port of a special scheme, as a string. -/
def defaultPort (scheme : String) : String :=
  if scheme = "http" ∨ scheme = "ws" then "80"
  else if scheme = "https" ∨ scheme = "wss" then "443"
  else if scheme = "ftp" then "21"
  else ""

/-- Digits-to-number, for port normalization. -/
def digitsToNat (l : List Char) : Nat :=
  l.foldl (fun acc c => acc * 10 + (c.toNat - '0'.toNat)) 0

/-- Model of `new URL(s)`. -/
def parseUrl (s : String) : Option ParsedUrl :=
  let raw := ((jsTrimList s.data).filter
    (fun c => c ≠ '\t' ∧ c ≠ '\n' ∧ c ≠ '\r'))
  match splitFirstOnList "://".data raw with
  | none => none
  | some (schemeChars, rest) =>
    match schemeChars with
    | [] => none
    | c0 :: cs =>
      if isAsciiAlpha c0 ∧ cs.all isSchemeRestChar then
        let scheme := String.mk ((c0 :: cs).map lowerChar)
        let special := scheme ∈ specialSchemes
        let authLen := rest.takeWhile (fun c => c ≠ '/' ∧ c ≠ '?' ∧ c ≠ '#')
        let afterAuth := rest.drop authLen.length
        let (userinfo, hostport) :=
          match splitLastAtChar '@' authLen with
          | some (u, hp) => (u, hp)
          | none => ([], authLen)
        let (host, portOpt) := splitFirstAtChar ':' hostport
        let port := portOpt.getD []
        if special ∧ host = [] then none
        else if portOpt.isSome ∧ port ≠ [] ∧
            ¬(port.all isAsciiDigit ∧ digitsToNat port ≤ 65535) then none
        else
          let hostname := if special then host.map lowerChar else host
          let (beforeHash, hashOpt) := splitFirstAtChar '#' afterAuth
          let (path, searchOpt) := splitFirstAtChar '?' beforeHash
          let pathname := if special ∧ path = [] then "/" else String.mk path
          let search := match searchOpt with
            | some q => if q = [] then "" else String.mk ('?' :: q)
            | none => ""
          let hash := match hashOpt with
            | some f => if f = [] then "" else String.mk ('#' :: f)
            | none => ""
          some {
            scheme := scheme
            userinfo := String.mk userinfo
            hostname := String.mk hostname
            port := if portOpt.isSome ∧ port ≠ [] then
                      let p := toString (digitsToNat port)
                      if special ∧ p = defaultPort scheme then "" else p
                    else ""
            pathname := pathname
            search := search
            hash := hash }
      else none

/-- The serialized `href` of a parsed URL. -/
def hrefOf (u : ParsedUrl) : String :=
  u.scheme ++ "://" ++
  (if u.userinfo ≠ "" then u.userinfo ++ "@" else "") ++
  u.hostname ++
  (if u.port ≠ "" then ":" ++ u.port else "") ++
  u.pathname ++ u.search ++ u.hash

/-! ## JSON values and a model of `JSON.parse`

Numeric literals are stored by their integer part (fractions and
exponents are consumed syntactically but their value is irrelevant to
every use the worker makes of parsed JSON); lone surrogate escapes are
modelled as parse failures. -/

inductive Json where
  | null
  | bool (b : Bool)
  | num (n : Int)
  | str (s : String)
  | arr (xs : List Json)
  | obj (fields : List (String × Json))
deriving Repr

/-- JSON insignificant whitespace. -/
def skipJsonWs (l : List Char) : List Char :=
  l.dropWhile (fun c => c = ' ' || c = '\t' || c = '\n' || c = '\r')

/-- Four hexadecimal digits. -/
def parseHex4 : List Char → Option (Nat × List Char)
  | a :: b :: c :: d :: rest =>
    match hexVal a, hexVal b, hexVal c, hexVal d with
    | some va, some vb, some vc, some vd =>
      some (((va * 16 + vb) * 16 + vc) * 16 + vd, rest)
    | _, _, _, _ => none
  | _ => none

/-- Fuel-driven body of a JSON string literal, after the opening quote;
returns the decoded characters and the input after the closing quote.
Every step consumes at least one character, so fuel `length` always
suffices. -/
def parseJsonStrBody : Nat → List Char → Option (List Char × List Char)
  | 0, _ => none
  | _ + 1, [] => none
  | _ + 1, '"' :: rest => some ([], rest)
  | fuel + 1, '\\' :: esc =>
    match esc with
    | [] => none
    | e :: rest =>
      let simple : Option Char :=
        if e = '"' then some '"'
        else if e = '\\' then some '\\'
        else if e = '/' then some '/'
        else if e = 'b' then some (Char.ofNat 8)
        else if e = 'f' then some (Char.ofNat 12)
        else if e = 'n' then some '\n'
        else if e = 'r' then some '\r'
        else if e = 't' then some '\t'
        else none
      match simple with
      | some c =>
        match parseJsonStrBody fuel rest with
        | some (cs, r) => some (c :: cs, r)
        | none => none
      | none =>
        if e = 'u' then
          match parseHex4 rest with
          | some (n, rest2) =>
            if 0xD800 ≤ n ∧ n ≤ 0xDBFF then
              match rest2 with
              | '\\' :: 'u' :: rest3 =>
                match parseHex4 rest3 with
                | some (m, rest4) =>
                  if 0xDC00 ≤ m ∧ m ≤ 0xDFFF then
                    match parseJsonStrBody fuel rest4 with
                    | some (cs, r) =>
                      some (Char.ofNat (0x10000 + (n - 0xD800) * 0x400 + (m - 0xDC00)) :: cs, r)
                    | none => none
                  else none
                | none => none
              | _ => none
            else if 0xDC00 ≤ n ∧ n ≤ 0xDFFF then none
            else
              match parseJsonStrBody fuel rest2 with
              | some (cs, r) => some (Char.ofNat n :: cs, r)
              | none => none
          | none => none
        else none
  | fuel + 1, c :: rest =>
    if c.toNat < 0x20 then none
    else
      match parseJsonStrBody fuel rest with
      | some (cs, r) => some (c :: cs, r)
      | none => none

/-- A JSON numeric literal; fraction and exponent parts are consumed
syntactically but only the integer part is retained.  This makes a
fractional literal such as `0.5` come out as `num 0`, which the
modelled truthiness then treats as falsy although `0.5` is truthy in
JS: the model is faithful only for integer-valued numeric fields
(ports, and every numeric field the theorems below exercise), not for
fractional ones. -/
def parseJsonNum (l : List Char) : Option (Int × List Char) :=
  let (neg, l1) := match l with
    | '-' :: r => (true, r)
    | _ => (false, l)
  let intDigits := l1.takeWhile isAsciiDigit
  let afterInt := l1.drop intDigits.length
  if intDigits = [] then none
  else if intDigits.length > 1 ∧ intDigits.headD '0' = '0' then none
  else
    let (okFrac, afterFrac) := match afterInt with
      | '.' :: r =>
        let fd := r.takeWhile isAsciiDigit
        if fd = [] then (false, afterInt) else (true, r.drop fd.length)
      | _ => (true, afterInt)
    if ¬okFrac then none
    else
      let (okExp, afterExp) := match afterFrac with
        | e :: r =>
          if e = 'e' ∨ e = 'E' then
            let r2 := match r with
              | s :: r3 => if s = '+' ∨ s = '-' then r3 else r
              | [] => r
            let ed := r2.takeWhile isAsciiDigit
            if ed = [] then (false, afterFrac) else (true, r2.drop ed.length)
          else (true, afterFrac)
        | [] => (true, afterFrac)
      if ¬okExp then none
      else
        let v : Int := Int.ofNat (digitsToNat intDigits)
        some (if neg then -v else v, afterExp)

mutual

/-- One JSON value, expecting no leading whitespace. -/
def parseJsonVal : Nat → List Char → Option (Json × List Char)
  | 0, _ => none
  | fuel + 1, l =>
    match l with
    | [] => none
    | '"' :: rest =>
      match parseJsonStrBody (rest.length + 1) rest with
      | some (cs, r) => some (.str (String.mk cs), r)
      | none => none
    | '[' :: rest =>
      match skipJsonWs rest with
      | ']' :: r => some (.arr [], r)
      | l2 =>
        match parseJsonArrItems fuel l2 with
        | some (xs, r) => some (.arr xs, r)
        | none => none
    | '{' :: rest =>
      match skipJsonWs rest with
      | '}' :: r => some (.obj [], r)
      | l2 =>
        match parseJsonObjItems fuel l2 with
        | some (fs, r) => some (.obj fs, r)
        | none => none
    | c :: _ =>
      if startsWithList l "null".data then some (.null, l.drop 4)
      else if startsWithList l "true".data then some (.bool true, l.drop 4)
      else if startsWithList l "false".data then some (.bool false, l.drop 5)
      else if c = '-' ∨ isAsciiDigit c then
        match parseJsonNum l with
        | some (n, r) => some (.num n, r)
        | none => none
      else none

/-- Comma-separated array items, ended by `]`. -/
def parseJsonArrItems : Nat → List Char → Option (List Json × List Char)
  | 0, _ => none
  | fuel + 1, l =>
    match parseJsonVal fuel l with
    | some (v, r) =>
      match skipJsonWs r with
      | ',' :: r2 =>
        match parseJsonArrItems fuel (skipJsonWs r2) with
        | some (xs, r3) => some (v :: xs, r3)
        | none => none
      | ']' :: r2 => some ([v], r2)
      | _ => none
    | none => none

/-- Comma-separated `"key": value` members, ended by `}`. -/
def parseJsonObjItems : Nat → List Char → Option (List (String × Json) × List Char)
  | 0, _ => none
  | fuel + 1, l =>
    match l with
    | '"' :: rest =>
      match parseJsonStrBody (rest.length + 1) rest with
      | some (k, r) =>
        match skipJsonWs r with
        | ':' :: r2 =>
          match parseJsonVal fuel (skipJsonWs r2) with
          | some (v, r3) =>
            match skipJsonWs r3 with
            | ',' :: r4 =>
              match parseJsonObjItems fuel (skipJsonWs r4) with
              | some (fs, r5) => some ((String.mk k, v) :: fs, r5)
              | none => none
            | '}' :: r4 => some ([(String.mk k, v)], r4)
            | _ => none
          | none => none
        | _ => none
      | none => none
    | _ => none

end

/-- Model of `JSON.parse`; `none` models a thrown `SyntaxError`. -/
def jsonParse (s : String) : Option Json :=
  match parseJsonVal (2 * s.data.length + 8) (skipJsonWs s.data) with
  | some (v, rest) => if skipJsonWs rest = [] then some v else none
  | none => none

/-! ## JS value semantics over parsed JSON -/

/-- Property lookup; with duplicate keys `JSON.parse` keeps the last. -/
def getField (j : Json) (k : String) : Option Json :=
  match j with
  | .obj fs => fs.reverse.lookup k
  | _ => none

/-- JS truthiness of a JSON value. -/
def truthy : Json → Bool
  | .null => false
  | .bool b => b
  | .num n => n ≠ 0
  | .str s => s ≠ ""
  | .arr _ => true
  | .obj _ => true

/-- Truthiness of a possibly-absent property (`undefined` is falsy). -/
def truthyOpt : Option Json → Bool
  | some j => truthy j
  | none => false

mutual

/-- JS string conversion of a JSON value (template-literal semantics). -/
def jsToStr : Json → String
  | .null => "null"
  | .bool b => if b then "true" else "false"
  | .num n => toString n
  | .str s => s
  | .arr xs => jsToStrList xs
  | .obj _ => "[object Object]"

/-- Array-join semantics: elements joined by `,` with `null` rendered
empty. -/
def jsToStrList : List Json → String
  | [] => ""
  | [Json.null] => ""
  | [x] => jsToStr x
  | Json.null :: xs => "," ++ jsToStrList xs
  | x :: xs => jsToStr x ++ "," ++ jsToStrList xs

end

/-- String conversion of a possibly-absent property. -/
def jsToStrOpt : Option Json → String
  | some j => jsToStr j
  | none => "undefined"

/-- `parseInt(v, 10)`: convert to string, skip whitespace, read an
optional sign and a maximal digit run; `none` models `NaN`. -/
def parseIntPrefix (l : List Char) : Option Int :=
  let l1 := l.dropWhile isJsWs
  let (neg, l2) : Bool × List Char := match l1 with
    | '+' :: r => (false, r)
    | '-' :: r => (true, r)
    | _ => (false, l1)
  let ds := l2.takeWhile isAsciiDigit
  if ds = [] then none
  else
    let v : Int := Int.ofNat (digitsToNat ds)
    some (if neg then -v else v)

/-- `parseInt` applied to a possibly-absent JSON property. -/
def jsParseIntOpt : Option Json → Option Int
  | some j => parseIntPrefix (jsToStr j).data
  | none => none

/-! ## `js_convertJsonToSsLink` of the two revisions -/

/-- `js_convertJsonToSsLink` of `src/worker.js`: requires `method`,
`password`, `server`, `server_port` all truthy and
`parseInt(server_port, 10)` not `NaN`; the port in the produced URI is
the `parseInt` result. -/
def js_convertJsonToSsLink_w (cfg : Json) : Option String :=
  let method := getField cfg "method"
  let password := getField cfg "password"
  let server := getField cfg "server"
  let server_port := getField cfg "server_port"
  if truthyOpt method && truthyOpt password && truthyOpt server &&
      truthyOpt server_port then
    match jsParseIntOpt server_port with
    | none => none
    | some port =>
      let credentials := jsToStrOpt method ++ ":" ++ jsToStrOpt password
      let encodedCredentials := js_encodeBase64 credentials
      let tagv := getField cfg "tag"
      let tag := if truthyOpt tagv then jsToStrOpt tagv
                 else jsToStrOpt server ++ ":" ++ toString port
      some ("ss://" ++ encodedCredentials ++ "@" ++ jsToStrOpt server ++ ":" ++
        toString port ++ "#" ++ encodeURIComponentStr tag)
  else none

/-- `js_convertJsonToSsLink` of `src/unnamed/part_000`: same truthiness
test but no `parseInt`; `server_port` is interpolated as given. -/
def js_convertJsonToSsLink_p (cfg : Json) : Option String :=
  let method := getField cfg "method"
  let password := getField cfg "password"
  let server := getField cfg "server"
  let server_port := getField cfg "server_port"
  if truthyOpt method && truthyOpt password && truthyOpt server &&
      truthyOpt server_port then
    let credentials := jsToStrOpt method ++ ":" ++ jsToStrOpt password
    let encodedCredentials := js_encodeBase64 credentials
    let tagv := getField cfg "tag"
    let tag := if truthyOpt tagv then jsToStrOpt tagv
               else jsToStrOpt server ++ ":" ++ jsToStrOpt server_port
    some ("ss://" ++ encodedCredentials ++ "@" ++ jsToStrOpt server ++ ":" ++
      jsToStrOpt server_port ++ "#" ++ encodeURIComponentStr tag)
  else none

/-! ## Line recognition -/

/-- The protocol schemes of the recognizer regex
`/^(vless|vmess|ss|ssr|trojan|snell|mieru|anytls|hysteria|hysteria2|tuic|wireguard|ssh|juicity):\/\//i`,
identical in both revisions. -/
def protoSchemes : List String :=
  ["vless", "vmess", "ss", "ssr", "trojan", "snell", "mieru", "anytls",
   "hysteria", "hysteria2", "tuic", "wireguard", "ssh", "juicity"]

/-- A line matches the recognizer regex iff some alternative followed by
`://` is a case-insensitive prefix of it. -/
def matchesConfigScheme (line : String) : Bool :=
  protoSchemes.any (fun p => startsWithLower line.data (p ++ "://").data)

/-- `line.match(/^ssconf:\/\//i)`. -/
def matchesSsconf (line : String) : Bool :=
  startsWithLower line.data "ssconf://".data

/-- `line.match(/^https?:\/\//i)`. -/
def matchesHttp (line : String) : Bool :=
  startsWithLower line.data "http://".data ||
  startsWithLower line.data "https://".data

/-- `js_replaceSsconf` (both revisions):
`content.replace(/Ssconf:\/\//gi, 'https://')` — a global,
case-insensitive replacement. -/
def js_replaceSsconf (s : String) : String :=
  String.mk (replaceAllCIList "ssconf://".data "https://".data s.data)

/-! ## The crawler -/

structure CrawlTask where
  url : String
  depth : Nat
deriving Repr, DecidableEq

/-- State of one extraction run.  `configs` models the insertion-ordered
`allExtractedConfigs` set, `visited` the `visitedUrls` set, `queue` the
pending suffix of `urlsToProcessQueue` (the processed prefix is popped,
which is equivalent to the source's read cursor), and `fetched` is a
ghost log of every URL for which `fetch` was invoked. -/
structure CrawlState where
  configs : List String
  visited : List String
  queue : List CrawlTask
  fetched : List String
deriving Repr

/-- Insertion-ordered set add (JS `Set.prototype.add`). -/
def setAdd (l : List String) (x : String) : List String :=
  if x ∈ l then l else l ++ [x]

/-- `if (!visitedUrls.has(u)) { queue.push({url, depth}); visitedUrls.add(u) }`. -/
def enqueue (st : CrawlState) (url : String) (depth : Nat) : CrawlState :=
  if url ∈ st.visited then st
  else { st with
    queue := st.queue ++ [⟨url, depth⟩]
    visited := st.visited ++ [url] }

/-- The base64 sniff-and-decode prologue of `processContentBlock`
(part_000 variant): decode the trimmed block when `js_isBase64` accepts
it, keeping the original on a decode error. -/
def sniffDecode_p (contentBlock : String) : String :=
  if js_isBase64_p (jsTrim contentBlock) then
    match js_decodeBase64_p (jsTrim contentBlock) with
    | some d => d
    | none => contentBlock
  else contentBlock

/-- The same prologue with the worker.js base64 helpers. -/
def sniffDecode_w (contentBlock : String) : String :=
  if js_isBase64_w (jsTrim contentBlock) then
    match js_decodeBase64_w (jsTrim contentBlock) with
    | some d => d
    | none => contentBlock
  else contentBlock

/-- The JSON stage of `processContentBlock` in worker.js: arrays convert
element-wise, single objects convert directly, everything else (or a
parse failure) contributes nothing.  One error path is simplified: in
the JS, an array item that is `null` throws at the converter's
destructuring and the surrounding catch discards the conversions of the
whole block, while this model merely skips the `null` item (its
converter returns `none`) and keeps the other items' conversions. -/
def jsonExtract_w (content : String) : List String :=
  match jsonParse content with
  | some (.arr xs) => xs.filterMap js_convertJsonToSsLink_w
  | some (.obj fs) => (js_convertJsonToSsLink_w (.obj fs)).toList
  | _ => []

/-- The JSON stage in part_000: a non-array value is wrapped in a
singleton array before conversion.  As with `jsonExtract_w`, an array
item that is `null` throws in the JS (discarding the whole block's
conversions through the catch) but is merely skipped here. -/
def jsonExtract_p (content : String) : List String :=
  match jsonParse content with
  | some (.arr xs) => xs.filterMap js_convertJsonToSsLink_p
  | some j => (js_convertJsonToSsLink_p j).toList
  | none => []

/-- `content.split('\n').map(l => l.trim()).filter(l => l)`. -/
def contentLines (content : String) : List String :=
  (((splitOnCharAux '\n' content.data []).map jsTrimList).filter
    (· ≠ [])).map String.mk

/-- Per-line classification of part_000's `processContentBlock`
(config scheme first, then `ssconf://`, then any `http(s)://` URL,
enqueued unconditionally with the raw line as key). -/
def processLine_p (d : Nat) (st : CrawlState) (line : String) : CrawlState :=
  if matchesConfigScheme line then { st with configs := setAdd st.configs line }
  else if matchesSsconf line then enqueue st (js_replaceSsconf line) (d + 1)
  else if matchesHttp line then enqueue st line (d + 1)
  else st

/-- The subscription-likeness heuristic of worker.js for generic
`http(s)://` lines. -/
def isSubscriptionLike (u : ParsedUrl) : Bool :=
  jsEndsWith u.pathname ".txt" || jsEndsWith u.pathname ".csv" ||
  jsEndsWith u.pathname ".yaml" || jsEndsWith u.pathname ".yml" ||
  jsIncludes u.hostname "drive.google.com" ||
  jsIncludes u.hostname "s3.amazonaws.com" ||
  jsIncludes u.hostname "raw.githubusercontent.com" ||
  jsIncludes u.hostname "cdn.jsdelivr.net"

/-- Per-line classification of worker.js's `processContentBlock`
(`ssconf://` first and validated through `new URL` with the `href` as
key, then config schemes, then `http(s)://` lines enqueued only when
subscription-like). -/
def processLine_w (d : Nat) (st : CrawlState) (line : String) : CrawlState :=
  if matchesSsconf line then
    match parseUrl (js_replaceSsconf line) with
    | some u => enqueue st (hrefOf u) (d + 1)
    | none => st
  else if matchesConfigScheme line then { st with configs := setAdd st.configs line }
  else if matchesHttp line then
    match parseUrl line with
    | some u => if isSubscriptionLike u then enqueue st (hrefOf u) (d + 1) else st
    | none => st
  else st

/-- `processContentBlock` of part_000. -/
def processContentBlock_p (content : String) (d : Nat) (st : CrawlState) : CrawlState :=
  let processed := sniffDecode_p content
  let st1 := { st with configs := (jsonExtract_p processed).foldl setAdd st.configs }
  (contentLines processed).foldl (processLine_p d) st1

/-- `processContentBlock` of worker.js. -/
def processContentBlock_w (content : String) (d : Nat) (st : CrawlState) : CrawlState :=
  let processed := sniffDecode_w content
  let st1 := { st with configs := (jsonExtract_w processed).foldl setAdd st.configs }
  (contentLines processed).foldl (processLine_w d) st1

/-- The crawl loop shared by both revisions, parameterized by the
revision's `processContentBlock`.  A dequeued task at `depth ≥ maxDepth`
is dropped without contacting the oracle; otherwise the oracle is
consulted (`none` = network error or non-ok response: log and drop) and a
fetched body is processed at the task's own depth. -/
def crawlLoop (oracle : String → Option String) (maxDepth : Nat)
    (pcb : String → Nat → CrawlState → CrawlState) :
    Nat → CrawlState → CrawlState
  | 0, st => st
  | fuel + 1, st =>
    match st.queue with
    | [] => st
    | t :: rest =>
      if t.depth ≥ maxDepth then
        crawlLoop oracle maxDepth pcb fuel { st with queue := rest }
      else
        match oracle t.url with
        | none =>
          crawlLoop oracle maxDepth pcb fuel
            { st with queue := rest, fetched := st.fetched ++ [t.url] }
        | some content =>
          crawlLoop oracle maxDepth pcb fuel
            (pcb content t.depth
              { st with queue := rest, fetched := st.fetched ++ [t.url] })

/-- Initial inputs: a `link` (worker.js: one URL; part_000: a list) or
direct `text`/`file` content (identical once the boundary layer has
applied `atob` to file uploads). -/
inductive CrawlInput where
  | link (urls : List String)
  | text (content : String)

/-- Replace the first occurrence of an exact pattern, the semantics of JS
`String.prototype.replace` with a plain-string pattern. -/
def replaceFirstList (pat repl : List Char) : List Char → List Char
  | [] => []
  | c :: rest =>
    if pat.length ≠ 0 ∧ startsWithList (c :: rest) pat then
      repl ++ (c :: rest).drop pat.length
    else
      c :: replaceFirstList pat repl rest

/-- The GitHub `blob` → raw rewrite applied to initial link input. -/
def githubRawRewrite (u : String) : String :=
  if jsIncludes u "github.com" && jsIncludes u "/blob/" then
    String.mk (replaceFirstList "/blob/".data "/".data
      (replaceFirstList "github.com".data "raw.githubusercontent.com".data u.data))
  else u

/-- Queue/visited/configs seeding of part_000's
`recursivelyFetchAndExtractConfigs` before the loop runs. -/
def initState_p : CrawlInput → CrawlState
  | .link urls =>
    urls.foldl (fun st u => enqueue st (githubRawRewrite u) 0)
      ⟨[], [], [], []⟩
  | .text c => processContentBlock_p c 0 ⟨[], [], [], []⟩

/-- Queue/visited/configs seeding of worker.js's
`recursivelyFetchAndExtractConfigs` (single link input; an initial
`ssconf://` link is rewritten before the GitHub rewrite). -/
def initState_w : CrawlInput → CrawlState
  | .link urls =>
    urls.foldl (fun st u =>
      let u1 := if matchesSsconf u then js_replaceSsconf u else u
      enqueue st (githubRawRewrite u1) 0) ⟨[], [], [], []⟩
  | .text c => processContentBlock_w c 0 ⟨[], [], [], []⟩

/-- `recursivelyFetchAndExtractConfigs` of part_000, returning the whole
final state (its `configs` component is the function's return value). -/
def recursivelyFetchAndExtractConfigs_p (oracle : String → Option String)
    (input : CrawlInput) (maxDepth : Nat) (fuel : Nat) : CrawlState :=
  crawlLoop oracle maxDepth processContentBlock_p fuel (initState_p input)

/-- `recursivelyFetchAndExtractConfigs` of worker.js. -/
def recursivelyFetchAndExtractConfigs_w (oracle : String → Option String)
    (input : CrawlInput) (maxDepth : Nat) (fuel : Nat) : CrawlState :=
  crawlLoop oracle maxDepth processContentBlock_w fuel (initState_w input)

/-! ## The Cloudflare edge-domain classifier -/

/-- The fixed allowlist of edge-domain suffixes. -/
def cloudflareDomains : List String := [".workers.dev", ".pages.dev"]

/-- `domain.split(':')[0].toLowerCase().endsWith(suffix)` over the
allowlist (worker.js first strips after `:` only when a colon is present,
which is the same function). -/
def domainMatches (domain : String) : Bool :=
  let dn := (splitFirstAtChar ':' domain.data).1.map lowerChar
  cloudflareDomains.any (fun cf => endsWithList dn cf.data)

/-- `processedLine.split('://')[1].split('#')[0]`: the text between the
first and second occurrence of `://`, truncated at the first `#`. -/
def payloadPart (pl : String) : String :=
  match splitFirstOnList "://".data pl.data with
  | none => ""
  | some (_, after) =>
    let seg := match splitFirstOnList "://".data after with
      | some (b, _) => b
      | none => after
    String.mk (splitFirstAtChar '#' seg).1

/-- A candidate pushed from a JSON payload property: `none` when the
property is absent or falsy (not pushed), `some (some s)` for a pushed
string, and `some none` for a pushed truthy non-string — a marker on
which the final check loop would raise a `TypeError` (`.split` is not a
function), aborting the line. -/
def fieldCandidate (j : Json) (k : String) : Option (Option String) :=
  match getField j k with
  | some v =>
    if truthy v then
      match v with
      | .str s => some (some s)
      | _ => some none
    else none
  | none => none

/-- The final domain scan: succeed on the first matching string
candidate, abort (line skipped) on a non-string marker, fail when
exhausted. -/
def checkDomains : List (Option String) → Bool
  | [] => false
  | some d :: rest => if domainMatches d then true else checkDomains rest
  | none :: _ => false

/-- Candidate hostnames collected by part_000 for one (already
percent-decoded) line: hostname, every `sni` and `host` query value, and
— when the scheme is `vmess` or `ss` and the payload passes
`js_isBase64` — the `add`/`host`/`sni`/`server` payload properties.  The
outer `none` models the line-aborting throw of `js_decodeBase64` or
`JSON.parse` (part_000 has no inner `try` around the payload). -/
def candidates_p (pl : String) (u : ParsedUrl) : Option (List (Option String)) :=
  let base : List (Option String) :=
    some u.hostname ::
      ((searchGetAll u.search "sni").map some ++
       (searchGetAll u.search "host").map some)
  if u.scheme = "vmess" ∨ u.scheme = "ss" then
    let enc := payloadPart pl
    if js_isBase64_p enc then
      match js_decodeBase64_p enc with
      | none => none
      | some dec =>
        match jsonParse dec with
        | none => none
        | some j =>
          some (base ++
            [fieldCandidate j "add", fieldCandidate j "host",
             fieldCandidate j "sni", fieldCandidate j "server"].reduceOption)
    else some base
  else some base

/-- Candidate hostnames collected by worker.js: the hostname only when
truthy, `sni`/`host` query values, `add`/`host`/`sni` payload properties
for `vmess` and `ss`, and additionally `server`/`host`/`sni` when the
scheme is `ss`; payload decode or parse errors are swallowed by an inner
`try` and leave the earlier candidates intact. -/
def candidates_w (pl : String) (u : ParsedUrl) : List (Option String) :=
  let base : List (Option String) :=
    (if u.hostname ≠ "" then [some u.hostname] else []) ++
      ((searchGetAll u.search "sni").map some ++
       (searchGetAll u.search "host").map some)
  if u.scheme = "vmess" ∨ u.scheme = "ss" then
    let enc := payloadPart pl
    if js_isBase64_w enc then
      match js_decodeBase64_w enc with
      | none => base
      | some dec =>
        match jsonParse dec with
        | none => base
        | some j =>
          base ++
            [fieldCandidate j "add", fieldCandidate j "host",
             fieldCandidate j "sni"].reduceOption ++
            (if u.scheme = "ss" then
              [fieldCandidate j "server", fieldCandidate j "host",
               fieldCandidate j "sni"].reduceOption
             else [])
    else base
  else base

/-- The per-line keep decision of part_000's
`js_identifyCloudflareDomains`: HTML-unescape `&amp;`, percent-decode,
parse as a URL, collect candidates, scan; any failure skips the line. -/
def keepLine_p (line : String) : Bool :=
  match decodeURIComponentStr
      (String.mk (replaceAllList "&amp;".data "&".data line.data)) with
  | none => false
  | some pl =>
    match parseUrl pl with
    | none => false
    | some u =>
      match candidates_p pl u with
      | none => false
      | some cands => checkDomains cands

/-- The per-line keep decision of worker.js. -/
def keepLine_w (line : String) : Bool :=
  match decodeURIComponentStr
      (String.mk (replaceAllList "&amp;".data "&".data line.data)) with
  | none => false
  | some pl =>
    match parseUrl pl with
    | none => false
    | some u => checkDomains (candidates_w pl u)

/-- `js_identifyCloudflareDomains` of part_000: kept lines, first
occurrence only (the `identifiedConfigs` set preserves insertion
order). -/
def js_identifyCloudflareDomains_p (configLines : List String) : List String :=
  configLines.foldl (fun acc l => if keepLine_p l then setAdd acc l else acc) []

/-- `js_identifyCloudflareDomains` of worker.js. -/
def js_identifyCloudflareDomains_w (configLines : List String) : List String :=
  configLines.foldl (fun acc l => if keepLine_w l then setAdd acc l else acc) []

/-! ## The quota allocator

The two-pass protocol-quota allocator is not present in the two script
revisions under `src/` (they only filter by a protocol list, shuffle and
apply a single count cap); it belongs to the part of the repository the
specification's §4.5 describes.  It is therefore modelled from the
specification below.  `allocate` takes the configuration list in its
post-shuffle order, so quantifying a statement over all permutations of a
list covers every outcome of the one-time Fisher–Yates shuffle. -/

/-- A caller-supplied priority entry: lower-cased protocol aliases that
map to one logical group, and a quota where `0` means "unlimited — take
all remaining matches after all positive-quota groups". -/
structure ProtocolPriorityEntry where
  aliases : List String
  quota : Nat
deriving Repr, DecidableEq

/-- Modelled from the spec: the scheme extraction `^[a-z0-9]+://`
(case-insensitive) used by the allocator's grouping stage. -/
def schemeOf (line : String) : Option String :=
  match splitFirstOnList "://".data (line.data.map lowerChar) with
  | some (sc, _) =>
    if sc ≠ [] ∧ sc.all (fun c => ('a' ≤ c && c ≤ 'z') || isAsciiDigit c) then
      some (String.mk sc)
    else none
  | none => none

/-- Modelled from the spec: the priority-list group a line belongs to
(the first entry declaring its scheme as an alias); `none` drops the
line at the grouping stage. -/
def groupIdxOf (pl : List ProtocolPriorityEntry) (line : String) : Option Nat :=
  match schemeOf line with
  | some sc => pl.findIdx? (fun e => sc ∈ e.aliases)
  | none => none

/-- Modelled from the spec: the per-group buckets produced by scanning
the (already shuffled) configuration list in order. -/
def groupBuckets (pl : List ProtocolPriorityEntry) (configs : List String) :
    List (List String) :=
  (List.range pl.length).map
    (fun i => configs.filter (fun l => groupIdxOf pl l = some i))

/-- Modelled from the spec — Pass 1 (bounded groups): iterate the
priority list in order; every entry with positive quota removes up to
`quota` lines from its bucket and appends them to the result.  Returns
the result so far and the remaining buckets. -/
def passOne (z : List (ProtocolPriorityEntry × List String)) :
    List String × List (List String) :=
  z.foldl
    (fun acc eb =>
      if eb.1.quota > 0 then
        (acc.1 ++ eb.2.take eb.1.quota, acc.2 ++ [eb.2.drop eb.1.quota])
      else (acc.1, acc.2 ++ [eb.2]))
    ([], [])

/-- Modelled from the spec — Pass 2 (unlimited groups): iterate the
priority list again; every entry with quota `0` appends all lines still
in its bucket. -/
def passTwo (z : List (ProtocolPriorityEntry × List String)) : List String :=
  z.foldl (fun acc eb => if eb.1.quota = 0 then acc ++ eb.2 else acc) []

/-- Modelled from the spec (§4.5, absent from the `src/` revisions):
`allocate(configs, priorityList, globalCap)` — group the post-shuffle
configuration list by declared alias, run the bounded pass then the
unlimited pass, and truncate to `globalCap` only when `globalCap > 0`. -/
def allocate (configs : List String) (pl : List ProtocolPriorityEntry)
    (globalCap : Nat) : List String :=
  let z := pl.zip (groupBuckets pl configs)
  let p1 := passOne z
  let result := p1.1 ++ passTwo (pl.zip p1.2)
  if globalCap > 0 then result.take globalCap else result

/-- The dedup invariant of a crawl state: no URL is ever enqueued twice —
the fetch log together with the pending queue is duplicate-free, the
visited set is duplicate-free, and both are covered by the visited set
(every enqueue is guarded by visited-set membership). -/
def crawlInv (st : CrawlState) : Prop :=
  (st.fetched ++ st.queue.map CrawlTask.url).Nodup ∧
  st.visited.Nodup ∧
  (∀ u ∈ st.fetched, u ∈ st.visited) ∧
  (∀ t ∈ st.queue, t.url ∈ st.visited)

/-- A line that the content-block processor treats as a pure
subscription pointer: not base64-sniffed, not JSON, a single trimmed
line, matching `https?://` but neither a config scheme nor `ssconf://`.
(Stated through decidable equations so concrete instances evaluate.) -/
def plainHttpLine (u : String) : Prop :=
  sniffDecode_p u = u ∧ (jsonParse u).isNone = true ∧ contentLines u = [u] ∧
  matchesConfigScheme u = false ∧ matchesSsconf u = false ∧
  matchesHttp u = true

instance (u : String) : Decidable (plainHttpLine u) := by
  unfold plainHttpLine
  infer_instance

/-- The crawl state reached after fetching the first `i` links of a
chain `url 0 → url 1 → …`: the task for `url i` is pending at depth `i`,
everything before it has been fetched and everything up to `url i` is
visited. -/
def chainState (url : Nat → String) (i : Nat) : CrawlState :=
  ⟨[], (List.range (i + 1)).map url, [⟨url i, i⟩], (List.range i).map url⟩

/-! ## Claim-side predicates (stated from the claims' wording, for
refinement comparison against the code) -/

/-- C6's qualification condition as the claim words it: non-empty
`method`, `password`, `server` and a `server_port` convertible to an
integer (any number is; a string is when an integer can be read from
it). -/
def claimQualifiesSs (cfg : Json) : Bool :=
  (match getField cfg "method" with
   | some (.str s) => s ≠ ""
   | _ => false) &&
  (match getField cfg "password" with
   | some (.str s) => s ≠ ""
   | _ => false) &&
  (match getField cfg "server" with
   | some (.str s) => s ≠ ""
   | _ => false) &&
  (match getField cfg "server_port" with
   | some (.num _) => true
   | some (.str s) => (parseIntPrefix s.data).isSome
   | _ => false)

/-! # Theorems -/

/-! ## Generic helper lemmas -/

theorem setAdd_mem {l : List String} {x y : String} :
    y ∈ setAdd l x ↔ y ∈ l ∨ y = x := by
  unfold setAdd
  split
  · rename_i h
    constructor
    · exact Or.inl
    · rintro (hy | rfl)
      · exact hy
      · exact h
  · simp

theorem setAdd_sub {l : List String} {x y : String} (h : y ∈ l) :
    y ∈ setAdd l x := setAdd_mem.mpr (Or.inl h)

theorem foldl_setAdd_sub {xs : List String} {l : List String} {y : String}
    (h : y ∈ l) : y ∈ xs.foldl setAdd l := by
  induction xs generalizing l with
  | nil => exact h
  | cons x xs ih => exact ih (setAdd_sub h)

/-- `enqueue` never changes the config set. -/
theorem enqueue_configs (st : CrawlState) (u : String) (d : Nat) :
    (enqueue st u d).configs = st.configs := by
  unfold enqueue; split <;> rfl

/-- A case-insensitive prefix match succeeds on the lower-case pattern
itself followed by anything, provided the pattern is fixed under
`lowerChar`. -/
theorem startsWithLower_self_append {pat rest : List Char}
    (h : pat.map lowerChar = pat) :
    startsWithLower (pat ++ rest) pat = true := by
  induction pat with
  | nil => simp [startsWithLower]
  | cons p ps ih =>
    simp only [List.map_cons, List.cons.injEq] at h
    simp only [List.cons_append, startsWithLower, h.1, decide_True,
      Bool.true_and]
    exact ih h.2

/-! ## Claim C2: the recognized protocol-scheme set -/

/-- Counterexample to C2: the recognizer set contains neither `warp` nor
`socks5` nor `mtproto` (nor the `hy2` alias); a content block consisting
of such a line contributes nothing to the extracted configuration set in
either revision, while the claim states those lines are extracted
verbatim. -/
theorem c2_counterexample :
    matchesConfigScheme "warp://x@h:1" = false ∧
    matchesConfigScheme "socks5://x@h:1" = false ∧
    matchesConfigScheme "mtproto://x@h:1" = false ∧
    matchesConfigScheme "hy2://x@h:1" = false ∧
    (processContentBlock_p "warp://x@h:1" 0 ⟨[], [], [], []⟩).configs = [] ∧
    (processContentBlock_w "warp://x@h:1" 0 ⟨[], [], [], []⟩).configs = [] ∧
    (processContentBlock_p "socks5://x@h:1" 0 ⟨[], [], [], []⟩).configs = [] ∧
    (processContentBlock_p "mtproto://x@h:1" 0 ⟨[], [], [], []⟩).configs = [] := by
  decide

/-- C2 as amended: the fixed recognizer set is exactly
{vless, vmess, ss, ssr, trojan, snell, mieru, anytls, hysteria,
hysteria2, tuic, wireguard, ssh, juicity} — without `warp`, `socks5`,
`mtproto` or an `hy2` alias.  A line is recognized iff one of these
fourteen schemes followed by `://` is a case-insensitive prefix of it; a
recognized line is added verbatim to the config set by the line step of
either revision, and the other branches never touch the config set. -/
theorem c2_recognizer_set :
    (∀ line : String, matchesConfigScheme line = true ↔
      ∃ p ∈ protoSchemes, startsWithLower line.data (p ++ "://").data = true) ∧
    (∀ p ∈ protoSchemes, matchesConfigScheme (p ++ "://x") = true) ∧
    (∀ (line : String) (d : Nat) (st : CrawlState),
      (processLine_p d st line).configs =
        (if matchesConfigScheme line then setAdd st.configs line
         else st.configs)) ∧
    (∀ (line : String) (d : Nat) (st : CrawlState),
      (processLine_w d st line).configs =
        (if matchesConfigScheme line ∧ matchesSsconf line = false then
          setAdd st.configs line
         else st.configs)) := by
  refine ⟨?_, ?_, ?_, ?_⟩
  · intro line
    simp [matchesConfigScheme, List.any_eq_true]
  · decide
  · intro line d st
    cases hc : matchesConfigScheme line with
    | true => simp [processLine_p, hc]
    | false =>
      cases hs : matchesSsconf line with
      | true => simp [processLine_p, hc, hs, enqueue_configs]
      | false =>
        cases hh : matchesHttp line with
        | true => simp [processLine_p, hc, hs, hh, enqueue_configs]
        | false => simp [processLine_p, hc, hs, hh]
  · intro line d st
    cases hs : matchesSsconf line with
    | true =>
      cases hp : parseUrl (js_replaceSsconf line) with
      | some u => simp [processLine_w, hs, hp, enqueue_configs]
      | none => simp [processLine_w, hs, hp]
    | false =>
      cases hc : matchesConfigScheme line with
      | true => simp [processLine_w, hs, hc]
      | false =>
        cases hh : matchesHttp line with
        | false => simp [processLine_w, hs, hc, hh]
        | true =>
          cases hp : parseUrl line with
          | none => simp [processLine_w, hs, hc, hh, hp]
          | some u =>
            cases hsub : isSubscriptionLike u with
            | true => simp [processLine_w, hs, hc, hh, hp, hsub, enqueue_configs]
            | false => simp [processLine_w, hs, hc, hh, hp, hsub]

/-- Witness for `c2_recognizer_set`: each conjunct applied at a concrete
input — `ssr` is in the recognizer set, the recognizer accepts
`ssr://x`, and both line steps add a recognized line to an empty config
set. -/
theorem c2_recognizer_set_witness :
    matchesConfigScheme "ssr://x" = true ∧
    (processLine_p 0 ⟨[], [], [], []⟩ "ssr://x").configs =
      (if matchesConfigScheme "ssr://x" then setAdd [] "ssr://x" else []) ∧
    (processLine_w 0 ⟨[], [], [], []⟩ "ssr://x").configs =
      (if matchesConfigScheme "ssr://x" ∧ matchesSsconf "ssr://x" = false then
        setAdd [] "ssr://x" else []) :=
  ⟨c2_recognizer_set.2.1 "ssr" (by decide),
   c2_recognizer_set.2.2.1 "ssr://x" 0 ⟨[], [], [], []⟩,
   c2_recognizer_set.2.2.2 "ssr://x" 0 ⟨[], [], [], []⟩⟩

/-! ## Claim C5: the `ssconf://` rewrite is global -/

/-- The fuel of the case-insensitive replacement scanner is irrelevant
once it covers the input length. -/
theorem replaceAllCIListAux_fuelinv (pat repl : List Char) :
    ∀ f1 f2 l, l.length ≤ f1 → l.length ≤ f2 →
      replaceAllCIListAux pat repl f1 l = replaceAllCIListAux pat repl f2 l := by
  intro f1
  induction f1 with
  | zero =>
    intro f2 l h1 _
    have hl : l = [] := List.eq_nil_of_length_eq_zero (Nat.le_zero.mp h1)
    subst hl
    cases f2 <;> rfl
  | succ g1 ih =>
    intro f2 l h1 h2
    cases l with
    | nil => cases f2 <;> rfl
    | cons c rest =>
      cases f2 with
      | zero => simp at h2
      | succ g2 =>
        simp only [replaceAllCIListAux]
        split
        · rename_i hg
          congr 1
          apply ih
          · simp only [List.length_drop, List.length_cons] at *
            omega
          · simp only [List.length_drop, List.length_cons] at *
            omega
        · congr 1
          apply ih
          · simp only [List.length_cons] at h1; omega
          · simp only [List.length_cons] at h2; omega

/-- Counterexample to C5: the `/gi` regex replaces every occurrence of
`ssconf://`, so an occurrence inside the query string is rewritten too,
while the claim states only the leading scheme component changes. -/
theorem c5_counterexample :
    js_replaceSsconf "ssconf://h/p?x=ssconf://y" = "https://h/p?x=https://y" ∧
    ("https://h/p?x=https://y" : String) ≠ "https://h/p?x=ssconf://y" := by
  constructor
  · decide
  · decide

/-- C5 as amended: `js_replaceSsconf` rewrites every case-insensitive
occurrence of `ssconf://` throughout the line (a global replacement),
not only the leading scheme component: a leading occurrence becomes
`https://` and the remainder of the line is itself rewritten
recursively, and the match is case-insensitive. -/
theorem c5_replace_global :
    (∀ r : String,
      js_replaceSsconf ("ssconf://" ++ r) = "https://" ++ js_replaceSsconf r) ∧
    js_replaceSsconf "SsCoNf://a" = "https://a" := by
  constructor
  · intro r
    have hdata : ("ssconf://" ++ r).data = "ssconf://".data ++ r.data := rfl
    have hlen : ("ssconf://".data ++ r.data).length = r.data.length + 9 := by
      simp [List.length_append]
    show String.mk (replaceAllCIListAux _ _ ("ssconf://" ++ r).data.length _) =
      "https://" ++ String.mk (replaceAllCIListAux _ _ r.data.length _)
    rw [hdata, hlen]
    have hsw : startsWithLower ('s' :: ("sconf://".data ++ r.data))
        "ssconf://".data = true :=
      @startsWithLower_self_append "ssconf://".data r.data (by decide)
    have hdrop : ('s' :: ("sconf://".data ++ r.data)).drop
        ("ssconf://".data).length = r.data :=
      List.drop_left "ssconf://".data r.data
    have hstep :
        replaceAllCIListAux "ssconf://".data "https://".data
          (r.data.length + 9) ("ssconf://".data ++ r.data) =
        "https://".data ++
          replaceAllCIListAux "ssconf://".data "https://".data
            (r.data.length + 8) r.data := by
      have h9 : r.data.length + 9 = (r.data.length + 8) + 1 := rfl
      rw [h9]
      show replaceAllCIListAux _ _ _
        ('s' :: ("sconf://".data ++ r.data)) = _
      rw [replaceAllCIListAux, if_pos ⟨by decide, hsw⟩, hdrop]
    rw [hstep]
    rw [replaceAllCIListAux_fuelinv _ _ (r.data.length + 8) r.data.length r.data
      (by omega) (Nat.le_refl _)]
    rfl
  · decide

/-! ## Claim C6: the JSON → `ss://` conversion -/

/-- Counterexample to C6: an object with non-empty `method`, `password`,
`server` and the integer `server_port` 0 qualifies under the claim's
"convertible to an integer" condition, yet both revisions reject it —
the code tests JS truthiness of `server_port`, and the number 0 is
falsy. -/
theorem c6_counterexample :
    claimQualifiesSs (Json.obj [("method", Json.str "m"),
      ("password", Json.str "p"), ("server", Json.str "h"),
      ("server_port", Json.num 0)]) = true ∧
    js_convertJsonToSsLink_w (Json.obj [("method", Json.str "m"),
      ("password", Json.str "p"), ("server", Json.str "h"),
      ("server_port", Json.num 0)]) = none ∧
    js_convertJsonToSsLink_p (Json.obj [("method", Json.str "m"),
      ("password", Json.str "p"), ("server", Json.str "h"),
      ("server_port", Json.num 0)]) = none := by
  decide

/-- C6 as amended, per revision.  worker.js converts an object iff
`method`, `password`, `server` and `server_port` are all JS-truthy (a
string iff non-empty, a number iff non-zero) AND `parseInt(server_port,
10)` is not `NaN`, interpolating the parsed port; part_000 has no
`parseInt` — it converts iff the four fields are truthy and interpolates
`server_port` as given, so `server_port = "abc"` converts there
(`ss://…@h:abc#h%3Aabc`) while worker.js rejects it.  `server_port = 0`,
although an integer, is rejected by both (truthiness).  The produced URI
is `ss://base64(method:password)@server:port#urlencode(tag, defaulting
to server:port)`; the claim's example produces exactly
`ss://YWVzLTI1Ni1nY206cA==@h:8388#h%3A8388` in both revisions, and a
non-qualifying object yields `none` (silently skipped, no error). -/
theorem c6_conversion :
    js_convertJsonToSsLink_w (Json.obj [("method", Json.str "aes-256-gcm"),
      ("password", Json.str "p"), ("server", Json.str "h"),
      ("server_port", Json.num 8388)]) =
      some "ss://YWVzLTI1Ni1nY206cA==@h:8388#h%3A8388" ∧
    js_convertJsonToSsLink_p (Json.obj [("method", Json.str "aes-256-gcm"),
      ("password", Json.str "p"), ("server", Json.str "h"),
      ("server_port", Json.num 8388)]) =
      some "ss://YWVzLTI1Ni1nY206cA==@h:8388#h%3A8388" ∧
    (∀ cfg : Json,
      (js_convertJsonToSsLink_w cfg).isSome = true ↔
        (truthyOpt (getField cfg "method") = true ∧
         truthyOpt (getField cfg "password") = true ∧
         truthyOpt (getField cfg "server") = true ∧
         truthyOpt (getField cfg "server_port") = true ∧
         (jsParseIntOpt (getField cfg "server_port")).isSome = true)) ∧
    (∀ cfg : Json,
      (js_convertJsonToSsLink_p cfg).isSome = true ↔
        (truthyOpt (getField cfg "method") = true ∧
         truthyOpt (getField cfg "password") = true ∧
         truthyOpt (getField cfg "server") = true ∧
         truthyOpt (getField cfg "server_port") = true)) ∧
    js_convertJsonToSsLink_w (Json.obj [("method", Json.str "aes-256-gcm"),
      ("password", Json.str "p"), ("server", Json.str "h"),
      ("server_port", Json.str "abc")]) = none ∧
    js_convertJsonToSsLink_p (Json.obj [("method", Json.str "aes-256-gcm"),
      ("password", Json.str "p"), ("server", Json.str "h"),
      ("server_port", Json.str "abc")]) =
      some "ss://YWVzLTI1Ni1nY206cA==@h:abc#h%3Aabc" ∧
    (∀ cfg : Json, truthyOpt (getField cfg "server_port") = false →
      js_convertJsonToSsLink_w cfg = none ∧ js_convertJsonToSsLink_p cfg = none) := by
  refine ⟨by decide, by decide, ?_, ?_, by decide, by decide, ?_⟩
  · intro cfg
    cases hm : truthyOpt (getField cfg "method") <;>
      cases hpw : truthyOpt (getField cfg "password") <;>
      cases hs : truthyOpt (getField cfg "server") <;>
      cases hsp : truthyOpt (getField cfg "server_port") <;>
      simp [js_convertJsonToSsLink_w, hm, hpw, hs, hsp]
    cases hp : jsParseIntOpt (getField cfg "server_port") <;> simp [hp]
  · intro cfg
    cases hm : truthyOpt (getField cfg "method") <;>
      cases hpw : truthyOpt (getField cfg "password") <;>
      cases hs : truthyOpt (getField cfg "server") <;>
      cases hsp : truthyOpt (getField cfg "server_port") <;>
      simp [js_convertJsonToSsLink_p, hm, hpw, hs, hsp]
  · intro cfg hsp
    constructor
    · simp [js_convertJsonToSsLink_w, hsp]
    · simp [js_convertJsonToSsLink_p, hsp]

/-- Witness for `c6_conversion`: the worker.js characterization applied
at the claim's own example object, the part_000 characterization applied
at the `server_port = "abc"` object it alone converts, and the skip
clause applied at an object whose `server_port` is the falsy 0. -/
theorem c6_conversion_witness :
    (js_convertJsonToSsLink_w (Json.obj [("method", Json.str "aes-256-gcm"),
      ("password", Json.str "p"), ("server", Json.str "h"),
      ("server_port", Json.num 8388)])).isSome = true ∧
    (js_convertJsonToSsLink_p (Json.obj [("method", Json.str "aes-256-gcm"),
      ("password", Json.str "p"), ("server", Json.str "h"),
      ("server_port", Json.str "abc")])).isSome = true ∧
    js_convertJsonToSsLink_w (Json.obj [("method", Json.str "m"),
      ("server_port", Json.num 0)]) = none :=
  ⟨(c6_conversion.2.2.1 _).mpr (by decide),
   (c6_conversion.2.2.2.1 _).mpr (by decide),
   (c6_conversion.2.2.2.2.2.2 (Json.obj [("method", Json.str "m"),
      ("server_port", Json.num 0)]) (by decide)).1⟩

/-! ## Claim C10: the two revisions' enqueue policies for generic
`http(s)://` lines -/

/-- C10: for a line that matches `https?://` and neither `ssconf://` nor
a config scheme, the worker.js line step enqueues it (keyed by its
normalized `href`) exactly when its parsed URL is subscription-like —
path ending in `.txt`/`.csv`/`.yaml`/`.yml` or hostname containing
`drive.google.com`/`s3.amazonaws.com`/`raw.githubusercontent.com`/`cdn.jsdelivr.net` —
while the part_000 line step enqueues every such line unconditionally
(subject only to the visited set inside `enqueue`); on the concrete line
`https://example.com/sub` the two revisions differ. -/
theorem c10_enqueue_policies :
    (∀ (line : String) (d : Nat) (st : CrawlState) (u : ParsedUrl),
      matchesSsconf line = false → matchesConfigScheme line = false →
      matchesHttp line = true → parseUrl line = some u →
      processLine_w d st line =
        (if jsEndsWith u.pathname ".txt" || jsEndsWith u.pathname ".csv" ||
            jsEndsWith u.pathname ".yaml" || jsEndsWith u.pathname ".yml" ||
            jsIncludes u.hostname "drive.google.com" ||
            jsIncludes u.hostname "s3.amazonaws.com" ||
            jsIncludes u.hostname "raw.githubusercontent.com" ||
            jsIncludes u.hostname "cdn.jsdelivr.net" then
          enqueue st (hrefOf u) (d + 1)
         else st)) ∧
    (∀ (line : String) (d : Nat) (st : CrawlState),
      matchesSsconf line = false → matchesConfigScheme line = false →
      matchesHttp line = true →
      processLine_p d st line = enqueue st line (d + 1)) ∧
    (processLine_p 0 ⟨[], [], [], []⟩ "https://example.com/sub").queue =
      [⟨"https://example.com/sub", 1⟩] ∧
    (processLine_w 0 ⟨[], [], [], []⟩ "https://example.com/sub").queue = [] ∧
    (processLine_w 0 ⟨[], [], [], []⟩ "https://example.com/a.txt").queue =
      [⟨"https://example.com/a.txt", 1⟩] ∧
    (processLine_w 0 ⟨[], [], [], []⟩
        "https://raw.githubusercontent.com/a/b").queue =
      [⟨"https://raw.githubusercontent.com/a/b", 1⟩] := by
  refine ⟨?_, ?_, by decide, by decide, by decide, by decide⟩
  · intro line d st u hs hc hh hp
    simp only [processLine_w, hs, hc, hh, hp, Bool.false_eq_true, if_false,
      if_true, isSubscriptionLike]
  · intro line d st hs hc hh
    simp only [processLine_p, hs, hc, hh, Bool.false_eq_true, if_false, if_true]

/-- Witness for `c10_enqueue_policies`: both policy characterizations
applied at the concrete line `https://example.com/a.txt`. -/
theorem c10_enqueue_policies_witness :
    processLine_w 0 ⟨[], [], [], []⟩ "https://example.com/a.txt" =
      (if jsEndsWith "/a.txt" ".txt" || jsEndsWith "/a.txt" ".csv" ||
          jsEndsWith "/a.txt" ".yaml" || jsEndsWith "/a.txt" ".yml" ||
          jsIncludes "example.com" "drive.google.com" ||
          jsIncludes "example.com" "s3.amazonaws.com" ||
          jsIncludes "example.com" "raw.githubusercontent.com" ||
          jsIncludes "example.com" "cdn.jsdelivr.net" then
        enqueue ⟨[], [], [], []⟩
          (hrefOf ⟨"https", "", "example.com", "", "/a.txt", "", ""⟩) 1
       else ⟨[], [], [], []⟩) ∧
    processLine_p 0 ⟨[], [], [], []⟩ "https://example.com/a.txt" =
      enqueue ⟨[], [], [], []⟩ "https://example.com/a.txt" 1 :=
  ⟨c10_enqueue_policies.1 "https://example.com/a.txt" 0 ⟨[], [], [], []⟩
      ⟨"https", "", "example.com", "", "/a.txt", "", ""⟩
      (by decide) (by decide) (by decide) (by decide),
   c10_enqueue_policies.2.1 "https://example.com/a.txt" 0 ⟨[], [], [], []⟩
      (by decide) (by decide) (by decide)⟩

/-! ## Configuration-set monotonicity of the crawler -/

theorem processLine_p_configs_sub {x : String} {st : CrawlState}
    (line : String) (d : Nat) (h : x ∈ st.configs) :
    x ∈ (processLine_p d st line).configs := by
  unfold processLine_p
  split
  · exact setAdd_sub h
  · split
    · rw [enqueue_configs]; exact h
    · split
      · rw [enqueue_configs]; exact h
      · exact h

theorem processLine_w_configs_sub {x : String} {st : CrawlState}
    (line : String) (d : Nat) (h : x ∈ st.configs) :
    x ∈ (processLine_w d st line).configs := by
  unfold processLine_w
  split
  · split
    · rw [enqueue_configs]; exact h
    · exact h
  · split
    · exact setAdd_sub h
    · split
      · split
        · split
          · rw [enqueue_configs]; exact h
          · exact h
        · exact h
      · exact h

theorem foldl_processLine_p_configs_sub {x : String} :
    ∀ (lines : List String) (st : CrawlState) (d : Nat),
      x ∈ st.configs → x ∈ (lines.foldl (processLine_p d) st).configs := by
  intro lines
  induction lines with
  | nil => intro st d h; exact h
  | cons l ls ih =>
    intro st d h
    exact ih _ d (processLine_p_configs_sub l d h)

theorem foldl_processLine_w_configs_sub {x : String} :
    ∀ (lines : List String) (st : CrawlState) (d : Nat),
      x ∈ st.configs → x ∈ (lines.foldl (processLine_w d) st).configs := by
  intro lines
  induction lines with
  | nil => intro st d h; exact h
  | cons l ls ih =>
    intro st d h
    exact ih _ d (processLine_w_configs_sub l d h)

theorem processContentBlock_p_configs_sub {x : String} {st : CrawlState}
    (content : String) (d : Nat) (h : x ∈ st.configs) :
    x ∈ (processContentBlock_p content d st).configs := by
  unfold processContentBlock_p
  exact foldl_processLine_p_configs_sub _ _ _ (foldl_setAdd_sub h)

theorem processContentBlock_w_configs_sub {x : String} {st : CrawlState}
    (content : String) (d : Nat) (h : x ∈ st.configs) :
    x ∈ (processContentBlock_w content d st).configs := by
  unfold processContentBlock_w
  exact foldl_processLine_w_configs_sub _ _ _ (foldl_setAdd_sub h)

theorem crawlLoop_configs_sub {oracle : String → Option String} {k : Nat}
    {pcb : String → Nat → CrawlState → CrawlState}
    (hmono : ∀ (content : String) (d : Nat) (st : CrawlState) (x : String),
      x ∈ st.configs → x ∈ (pcb content d st).configs) :
    ∀ (fuel : Nat) (st : CrawlState) (x : String),
      x ∈ st.configs → x ∈ (crawlLoop oracle k pcb fuel st).configs := by
  intro fuel
  induction fuel with
  | zero => intro st x h; exact h
  | succ f ih =>
    intro st x h
    rw [crawlLoop]
    cases hq : st.queue with
    | nil => simp only [hq]; exact h
    | cons t rest =>
      simp only [hq]
      split
      · exact ih _ _ h
      · cases ho : oracle t.url with
        | none => simp only [ho]; exact ih _ _ h
        | some content => simp only [ho]; exact ih _ _ (hmono _ _ _ _ h)

/-! ## Claim C9: fetch failures drop one task and never abort -/

/-- C9: when the oracle fails on the dequeued task's URL (modelling a
thrown network error or a non-ok response, which the code treats
identically), the crawl state advances exactly by dropping that task
(and logging the attempt) and the loop continues with the remaining
queue; moreover, configurations already accumulated are preserved by the
rest of the crawl, in both revisions. -/
theorem c9_fetch_failure :
    (∀ (oracle : String → Option String) (k : Nat)
       (pcb : String → Nat → CrawlState → CrawlState) (fuel : Nat)
       (c v f : List String) (t : CrawlTask) (rest : List CrawlTask),
      oracle t.url = none → t.depth < k →
      crawlLoop oracle k pcb (fuel + 1) ⟨c, v, t :: rest, f⟩ =
        crawlLoop oracle k pcb fuel ⟨c, v, rest, f ++ [t.url]⟩) ∧
    (∀ (oracle : String → Option String) (k fuel : Nat) (st : CrawlState)
       (x : String), x ∈ st.configs →
      x ∈ (crawlLoop oracle k processContentBlock_p fuel st).configs) ∧
    (∀ (oracle : String → Option String) (k fuel : Nat) (st : CrawlState)
       (x : String), x ∈ st.configs →
      x ∈ (crawlLoop oracle k processContentBlock_w fuel st).configs) := by
  refine ⟨?_, ?_, ?_⟩
  · intro oracle k pcb fuel c v f t rest ho hd
    rw [crawlLoop]
    simp only [ho]
    rw [if_neg (by omega)]
  · intro oracle k fuel st x h
    exact crawlLoop_configs_sub
      (fun content d st x hx => processContentBlock_p_configs_sub content d hx)
      fuel st x h
  · intro oracle k fuel st x h
    exact crawlLoop_configs_sub
      (fun content d st x hx => processContentBlock_w_configs_sub content d hx)
      fuel st x h

/-- Witness for `c9_fetch_failure`: a concrete failing fetch is dropped
while the already-extracted configuration survives the remaining
crawl. -/
theorem c9_fetch_failure_witness :
    crawlLoop (fun _ => none) 3 processContentBlock_p 1
        ⟨["vless://kept"], ["https://h/a"], [⟨"https://h/a", 0⟩], []⟩ =
      crawlLoop (fun _ => none) 3 processContentBlock_p 0
        ⟨["vless://kept"], ["https://h/a"], [], ["https://h/a"]⟩ ∧
    "vless://kept" ∈ (crawlLoop (fun _ => none) 3 processContentBlock_p 1
        ⟨["vless://kept"], ["https://h/a"], [⟨"https://h/a", 0⟩], []⟩).configs :=
  ⟨c9_fetch_failure.1 (fun _ => none) 3 processContentBlock_p 0
      ["vless://kept"] ["https://h/a"] [] ⟨"https://h/a", 0⟩ [] rfl (by decide),
   c9_fetch_failure.2.1 (fun _ => none) 3 1
      ⟨["vless://kept"], ["https://h/a"], [⟨"https://h/a", 0⟩], []⟩
      "vless://kept" (by decide)⟩

/-! ## Claim C4: the dedup invariant -/

theorem crawlInv_enqueue {st : CrawlState} (u : String) (d : Nat)
    (h : crawlInv st) : crawlInv (enqueue st u d) := by
  unfold enqueue
  split
  · exact h
  · rename_i hu
    obtain ⟨h1, h2, h3, h4⟩ := h
    refine ⟨?_, ?_, ?_, ?_⟩
    · show (st.fetched ++
        (st.queue ++ [({ url := u, depth := d } : CrawlTask)]).map
          CrawlTask.url).Nodup
      rw [List.map_append, ← List.append_assoc]
      rw [List.nodup_append]
      refine ⟨h1, by simp, ?_⟩
      intro a ha hb
      simp only [List.map_cons, List.map_nil, List.mem_singleton] at hb
      subst hb
      rcases List.mem_append.mp ha with hf | hq
      · exact hu (h3 _ hf)
      · obtain ⟨t, ht, rfl⟩ := List.mem_map.mp hq
        exact hu (h4 _ ht)
    · rw [List.nodup_append]
      refine ⟨h2, by simp, ?_⟩
      intro a ha hb
      simp only [List.mem_singleton] at hb
      subst hb
      exact hu ha
    · intro x hx
      exact List.mem_append.mpr (Or.inl (h3 _ hx))
    · intro t ht
      rcases List.mem_append.mp ht with h | h
      · exact List.mem_append.mpr (Or.inl (h4 _ h))
      · simp only [List.mem_singleton] at h
        subst h
        exact List.mem_append.mpr (Or.inr (by simp))

theorem crawlInv_processLine_p (line : String) (d : Nat) {st : CrawlState}
    (h : crawlInv st) : crawlInv (processLine_p d st line) := by
  unfold processLine_p
  split
  · exact h
  · split
    · exact crawlInv_enqueue _ _ h
    · split
      · exact crawlInv_enqueue _ _ h
      · exact h

theorem crawlInv_processLine_w (line : String) (d : Nat) {st : CrawlState}
    (h : crawlInv st) : crawlInv (processLine_w d st line) := by
  unfold processLine_w
  split
  · split
    · exact crawlInv_enqueue _ _ h
    · exact h
  · split
    · exact h
    · split
      · split
        · split
          · exact crawlInv_enqueue _ _ h
          · exact h
        · exact h
      · exact h

theorem crawlInv_foldl_p :
    ∀ (lines : List String) (d : Nat) (st : CrawlState),
      crawlInv st → crawlInv (lines.foldl (processLine_p d) st) := by
  intro lines
  induction lines with
  | nil => intro d st h; exact h
  | cons l ls ih => intro d st h; exact ih d _ (crawlInv_processLine_p l d h)

theorem crawlInv_foldl_w :
    ∀ (lines : List String) (d : Nat) (st : CrawlState),
      crawlInv st → crawlInv (lines.foldl (processLine_w d) st) := by
  intro lines
  induction lines with
  | nil => intro d st h; exact h
  | cons l ls ih => intro d st h; exact ih d _ (crawlInv_processLine_w l d h)

theorem crawlInv_processContentBlock_p (content : String) (d : Nat)
    {st : CrawlState} (h : crawlInv st) :
    crawlInv (processContentBlock_p content d st) :=
  crawlInv_foldl_p _ _ _ h

theorem crawlInv_processContentBlock_w (content : String) (d : Nat)
    {st : CrawlState} (h : crawlInv st) :
    crawlInv (processContentBlock_w content d st) :=
  crawlInv_foldl_w _ _ _ h

/-- Popping the head task (optionally logging its fetch) preserves the
invariant. -/
theorem crawlInv_pop {c v f : List String} {t : CrawlTask}
    {rest : List CrawlTask}
    (h : crawlInv ⟨c, v, t :: rest, f⟩) :
    crawlInv ⟨c, v, rest, f⟩ ∧ crawlInv ⟨c, v, rest, f ++ [t.url]⟩ := by
  obtain ⟨h1, h2, h3, h4⟩ := h
  simp only [List.map_cons] at h1
  constructor
  · refine ⟨?_, h2, h3, fun x hx => h4 x (List.mem_cons_of_mem _ hx)⟩
    exact (List.Sublist.append_left
      (List.sublist_cons_self t.url (rest.map CrawlTask.url)) f).nodup h1
  · refine ⟨?_, h2, ?_, fun x hx => h4 x (List.mem_cons_of_mem _ hx)⟩
    · rw [List.append_assoc]
      simpa using h1
    · intro x hx
      rcases List.mem_append.mp hx with hf | hu
      · exact h3 _ hf
      · simp only [List.mem_singleton] at hu
        subst hu
        exact h4 t (List.mem_cons_self _ _)

theorem crawlInv_crawlLoop (oracle : String → Option String) (k : Nat)
    (pcb : String → Nat → CrawlState → CrawlState)
    (hp : ∀ (content : String) (d : Nat) (st : CrawlState),
      crawlInv st → crawlInv (pcb content d st)) :
    ∀ (fuel : Nat) (st : CrawlState),
      crawlInv st → crawlInv (crawlLoop oracle k pcb fuel st) := by
  intro fuel
  induction fuel with
  | zero => intro st h; exact h
  | succ f ih =>
    intro st h
    rw [crawlLoop]
    rcases st with ⟨c, v, q, fe⟩
    cases hq : q with
    | nil => simpa [hq] using h
    | cons t rest =>
      subst hq
      simp only []
      split
      · exact ih _ (crawlInv_pop h).1
      · cases ho : oracle t.url with
        | none => simp only [ho]; exact ih _ (crawlInv_pop h).2
        | some content =>
          simp only [ho]
          exact ih _ (hp _ _ _ (crawlInv_pop h).2)

theorem crawlInv_empty : crawlInv ⟨[], [], [], []⟩ :=
  ⟨by simp, by simp, by simp, by simp⟩

theorem crawlInv_foldl_enqueue (f : String → String) :
    ∀ (urls : List String) (st : CrawlState), crawlInv st →
      crawlInv (urls.foldl (fun st u => enqueue st (f u) 0) st) := by
  intro urls
  induction urls with
  | nil => intro st h; exact h
  | cons u us ih =>
    intro st h
    exact ih _ (crawlInv_enqueue _ _ h)

theorem crawlInv_initState_p (input : CrawlInput) :
    crawlInv (initState_p input) := by
  cases input with
  | link urls =>
    exact crawlInv_foldl_enqueue githubRawRewrite urls _ crawlInv_empty
  | text c => exact crawlInv_processContentBlock_p c 0 crawlInv_empty

theorem crawlInv_initState_w (input : CrawlInput) :
    crawlInv (initState_w input) := by
  cases input with
  | link urls =>
    exact crawlInv_foldl_enqueue
      (fun u => githubRawRewrite (if matchesSsconf u then js_replaceSsconf u else u))
      urls _ crawlInv_empty
  | text c => exact crawlInv_processContentBlock_w c 0 crawlInv_empty

/-- C4: in any extraction run of either revision — any oracle, input,
depth limit and amount of fuel (so in particular in every intermediate
state the loop can reach) — the visited set is duplicate-free, the fetch
log is duplicate-free (the same URL is fetched at most once, however many
discovery paths reach it), every fetched URL was recorded in the visited
set, and the fetch log together with the still-pending queue is
duplicate-free (no URL occupies the queue twice). -/
theorem c4_dedup :
    (∀ (oracle : String → Option String) (input : CrawlInput)
       (maxDepth fuel : Nat),
      (recursivelyFetchAndExtractConfigs_p oracle input maxDepth fuel).visited.Nodup ∧
      (recursivelyFetchAndExtractConfigs_p oracle input maxDepth fuel).fetched.Nodup ∧
      ((recursivelyFetchAndExtractConfigs_p oracle input maxDepth fuel).fetched ++
        (recursivelyFetchAndExtractConfigs_p oracle input maxDepth fuel).queue.map
          CrawlTask.url).Nodup ∧
      (∀ u ∈ (recursivelyFetchAndExtractConfigs_p oracle input maxDepth fuel).fetched,
        u ∈ (recursivelyFetchAndExtractConfigs_p oracle input maxDepth fuel).visited)) ∧
    (∀ (oracle : String → Option String) (input : CrawlInput)
       (maxDepth fuel : Nat),
      (recursivelyFetchAndExtractConfigs_w oracle input maxDepth fuel).visited.Nodup ∧
      (recursivelyFetchAndExtractConfigs_w oracle input maxDepth fuel).fetched.Nodup ∧
      ((recursivelyFetchAndExtractConfigs_w oracle input maxDepth fuel).fetched ++
        (recursivelyFetchAndExtractConfigs_w oracle input maxDepth fuel).queue.map
          CrawlTask.url).Nodup ∧
      (∀ u ∈ (recursivelyFetchAndExtractConfigs_w oracle input maxDepth fuel).fetched,
        u ∈ (recursivelyFetchAndExtractConfigs_w oracle input maxDepth fuel).visited)) := by
  constructor
  · intro oracle input maxDepth fuel
    have h := crawlInv_crawlLoop oracle maxDepth processContentBlock_p
      (fun content d st hs => crawlInv_processContentBlock_p content d hs)
      fuel (initState_p input) (crawlInv_initState_p input)
    obtain ⟨h1, h2, h3, _⟩ := h
    exact ⟨h2, (List.sublist_append_left _ _).nodup h1, h1, h3⟩
  · intro oracle input maxDepth fuel
    have h := crawlInv_crawlLoop oracle maxDepth processContentBlock_w
      (fun content d st hs => crawlInv_processContentBlock_w content d hs)
      fuel (initState_w input) (crawlInv_initState_w input)
    obtain ⟨h1, h2, h3, _⟩ := h
    exact ⟨h2, (List.sublist_append_left _ _).nodup h1, h1, h3⟩

/-! ## Claim C3: the depth bound -/

theorem crawlLoop_empty_queue {oracle : String → Option String} {k : Nat}
    {pcb : String → Nat → CrawlState → CrawlState} {st : CrawlState}
    (h : st.queue = []) :
    ∀ fuel, crawlLoop oracle k pcb fuel st = st := by
  intro fuel
  cases fuel with
  | zero => rfl
  | succ f => rw [crawlLoop, h]

theorem enqueue_queue_mem {st : CrawlState} {u : String} {d : Nat}
    {t : CrawlTask} (h : t ∈ (enqueue st u d).queue) :
    t ∈ st.queue ∨ t = ⟨u, d⟩ := by
  unfold enqueue at h
  split at h
  · exact Or.inl h
  · rcases List.mem_append.mp h with h | h
    · exact Or.inl h
    · simp only [List.mem_singleton] at h
      exact Or.inr h

theorem processLine_p_queue_depth {st : CrawlState} {line : String} {d : Nat}
    {t : CrawlTask} (h : t ∈ (processLine_p d st line).queue) :
    t ∈ st.queue ∨ t.depth = d + 1 := by
  unfold processLine_p at h
  split at h
  · exact Or.inl h
  · split at h
    · rcases enqueue_queue_mem h with h | h
      · exact Or.inl h
      · subst h; exact Or.inr rfl
    · split at h
      · rcases enqueue_queue_mem h with h | h
        · exact Or.inl h
        · subst h; exact Or.inr rfl
      · exact Or.inl h

theorem processLine_w_queue_depth {st : CrawlState} {line : String} {d : Nat}
    {t : CrawlTask} (h : t ∈ (processLine_w d st line).queue) :
    t ∈ st.queue ∨ t.depth = d + 1 := by
  unfold processLine_w at h
  split at h
  · split at h
    · rcases enqueue_queue_mem h with h | h
      · exact Or.inl h
      · subst h; exact Or.inr rfl
    · exact Or.inl h
  · split at h
    · exact Or.inl h
    · split at h
      · split at h
        · split at h
          · rcases enqueue_queue_mem h with h | h
            · exact Or.inl h
            · subst h; exact Or.inr rfl
          · exact Or.inl h
        · exact Or.inl h
      · exact Or.inl h

theorem foldl_processLine_p_queue_depth {d : Nat} {t : CrawlTask} :
    ∀ (lines : List String) (st : CrawlState),
      t ∈ (lines.foldl (processLine_p d) st).queue →
      t ∈ st.queue ∨ t.depth = d + 1 := by
  intro lines
  induction lines with
  | nil => intro st h; exact Or.inl h
  | cons l ls ih =>
    intro st h
    rcases ih _ h with h | h
    · exact processLine_p_queue_depth h
    · exact Or.inr h

theorem foldl_processLine_w_queue_depth {d : Nat} {t : CrawlTask} :
    ∀ (lines : List String) (st : CrawlState),
      t ∈ (lines.foldl (processLine_w d) st).queue →
      t ∈ st.queue ∨ t.depth = d + 1 := by
  intro lines
  induction lines with
  | nil => intro st h; exact Or.inl h
  | cons l ls ih =>
    intro st h
    rcases ih _ h with h | h
    · exact processLine_w_queue_depth h
    · exact Or.inr h

/-- Processing a content block at depth `d` only ever enqueues tasks at
depth `d + 1` (part_000). -/
theorem processContentBlock_p_queue_depth {content : String} {d : Nat}
    {st : CrawlState} {t : CrawlTask}
    (h : t ∈ (processContentBlock_p content d st).queue) :
    t ∈ st.queue ∨ t.depth = d + 1 := by
  simp only [processContentBlock_p] at h
  have h2 := foldl_processLine_p_queue_depth _ _ h
  exact h2

/-- Processing a content block at depth `d` only ever enqueues tasks at
depth `d + 1` (worker.js). -/
theorem processContentBlock_w_queue_depth {content : String} {d : Nat}
    {st : CrawlState} {t : CrawlTask}
    (h : t ∈ (processContentBlock_w content d st).queue) :
    t ∈ st.queue ∨ t.depth = d + 1 := by
  simp only [processContentBlock_w] at h
  have h2 := foldl_processLine_w_queue_depth _ _ h
  exact h2

/-- One loop step on a task at `depth ≥ maxDepth`: dropped, no fetch. -/
theorem crawlLoop_drop (oracle : String → Option String) (k : Nat)
    (pcb : String → Nat → CrawlState → CrawlState) (fuel : Nat)
    (c v fe : List String) (t : CrawlTask) (rest : List CrawlTask)
    (h : t.depth ≥ k) :
    crawlLoop oracle k pcb (fuel + 1) ⟨c, v, t :: rest, fe⟩ =
      crawlLoop oracle k pcb fuel ⟨c, v, rest, fe⟩ := by
  rw [crawlLoop]
  show (if t.depth ≥ k then _ else _) = _
  rw [if_pos h]

/-- One loop step on a fetchable task whose fetch succeeds. -/
theorem crawlLoop_fetch (oracle : String → Option String) (k : Nat)
    (pcb : String → Nat → CrawlState → CrawlState) (fuel : Nat)
    (c v fe : List String) (t : CrawlTask) (rest : List CrawlTask)
    (content : String) (hd : t.depth < k) (ho : oracle t.url = some content) :
    crawlLoop oracle k pcb (fuel + 1) ⟨c, v, t :: rest, fe⟩ =
      crawlLoop oracle k pcb fuel
        (pcb content t.depth ⟨c, v, rest, fe ++ [t.url]⟩) := by
  rw [crawlLoop]
  show (if t.depth ≥ k then _ else _) = _
  rw [if_neg (by omega)]
  show (match oracle t.url with
    | none => crawlLoop oracle k pcb fuel ⟨c, v, rest, fe ++ [t.url]⟩
    | some content =>
      crawlLoop oracle k pcb fuel
        (pcb content t.depth ⟨c, v, rest, fe ++ [t.url]⟩)) = _
  rw [ho]

/-- A block consisting of a single plain subscription-pointer line is
processed by enqueuing exactly that line at `depth + 1` (part_000). -/
theorem processContentBlock_p_plain {u : String} (d : Nat) (st : CrawlState)
    (h : plainHttpLine u) :
    processContentBlock_p u d st = enqueue st u (d + 1) := by
  obtain ⟨hsniff, hjson, hlines, hc, hs, hh⟩ := h
  have hje : jsonExtract_p u = [] := by
    unfold jsonExtract_p
    rw [Option.isNone_iff_eq_none.mp hjson]
  unfold processContentBlock_p
  simp only [hsniff, hje, hlines, List.foldl_nil, List.foldl_cons]
  simp only [processLine_p, hc, hs, hh, Bool.false_eq_true, if_false, if_true]

/-- The empty content block leaves the state unchanged (part_000). -/
theorem processContentBlock_p_terminal (d : Nat) (st : CrawlState) :
    processContentBlock_p "" d st = st := rfl

/-- The crawl of a pointer chain, from the state reached after `i`
fetches: the final fetch log is the first `min N k` chain links. -/
theorem chain_loop (oracle : String → Option String)
    (url : Nat → String) (N k : Nat)
    (hplain : ∀ i, i < N → plainHttpLine (url i))
    (hinj : ∀ i, i < N → ∀ j, j < N → url i = url j → i = j)
    (horacle : ∀ i, i < N - 1 → oracle (url i) = some (url (i + 1)))
    (hlast : oracle (url (N - 1)) = some "") :
    ∀ (fuel i : Nat), i < N → i ≤ k → N - i < fuel →
      (crawlLoop oracle k processContentBlock_p fuel
        (chainState url i)).fetched = (List.range (min N k)).map url := by
  intro fuel
  induction fuel with
  | zero => intro i _ _ hf; omega
  | succ f ih =>
    intro i hiN hik hf
    unfold chainState
    by_cases hk : i ≥ k
    · rw [crawlLoop_drop oracle k processContentBlock_p f
        [] ((List.range (i + 1)).map url) ((List.range i).map url)
        ⟨url i, i⟩ [] hk]
      rw [crawlLoop_empty_queue rfl]
      have hmin : min N k = i := by omega
      rw [hmin]
    · have hfetched : (List.range i).map url ++ [url i] =
          (List.range (i + 1)).map url := by
        rw [List.range_succ, List.map_append]
        rfl
      by_cases hnext : i + 1 < N
      · rw [crawlLoop_fetch oracle k processContentBlock_p f
          [] ((List.range (i + 1)).map url) ((List.range i).map url)
          ⟨url i, i⟩ [] (url (i + 1)) (show i < k by omega)
          (horacle i (by omega))]
        have hnotmem : url (i + 1) ∉ (List.range (i + 1)).map url := by
          intro hmem
          obtain ⟨j, hj, hje⟩ := List.mem_map.mp hmem
          have hjlt : j < i + 1 := List.mem_range.mp hj
          have := hinj j (by omega) (i + 1) hnext hje
          omega
        have hvis : (List.range (i + 1)).map url ++ [url (i + 1)] =
            (List.range (i + 1 + 1)).map url := by
          nth_rewrite 2 [List.range_succ]
          rw [List.map_append]
          rfl
        have hstep : processContentBlock_p (url (i + 1)) i
            ⟨[], (List.range (i + 1)).map url, [],
              (List.range i).map url ++ [url i]⟩ = chainState url (i + 1) := by
          rw [processContentBlock_p_plain i _ (hplain (i + 1) hnext)]
          show enqueue _ _ _ = _
          unfold enqueue
          rw [if_neg hnotmem]
          show (⟨[], (List.range (i + 1)).map url ++ [url (i + 1)],
            [⟨url (i + 1), i + 1⟩], (List.range i).map url ++ [url i]⟩ :
              CrawlState) = _
          unfold chainState
          rw [hvis, hfetched]
        rw [hstep]
        exact ih (i + 1) hnext (by omega) (by omega)
      · have hor : oracle (url i) = some "" := by
          have hlasti : i = N - 1 := by omega
          rw [hlasti]; exact hlast
        rw [crawlLoop_fetch oracle k processContentBlock_p f
          [] ((List.range (i + 1)).map url) ((List.range i).map url)
          ⟨url i, i⟩ [] "" (show i < k by omega) hor]
        rw [processContentBlock_p_terminal]
        rw [crawlLoop_empty_queue rfl]
        show (List.range i).map url ++ [url i] = _
        have hmin : min N k = i + 1 := by omega
        rw [hmin, List.range_succ, List.map_append]
        rfl

/-- C3: (1) a dequeued task at depth ≥ maxDepth is dropped without the
oracle being consulted — the loop continues on the remaining queue with
the fetch log unchanged (strict inequality: tasks at depth < maxDepth
are fetched, as the chain below shows); (2) a fetched body processed at
depth `d` enqueues nested pointers only at depth `d + 1`, in both
revisions; (3) for an input link chain `url 0 → url 1 → … ` of `N`
distinct plain pointer links (each link's body consisting exactly of the
next link, the last body empty), the crawler fetches exactly the first
`min N maxDepth` links, in order. -/
theorem c3_depth_bound :
    (∀ (oracle : String → Option String) (k : Nat)
       (pcb : String → Nat → CrawlState → CrawlState) (fuel : Nat)
       (c v f : List String) (t : CrawlTask) (rest : List CrawlTask),
      t.depth ≥ k →
      crawlLoop oracle k pcb (fuel + 1) ⟨c, v, t :: rest, f⟩ =
        crawlLoop oracle k pcb fuel ⟨c, v, rest, f⟩) ∧
    (∀ (content : String) (d : Nat) (st : CrawlState) (t : CrawlTask),
      (t ∈ (processContentBlock_p content d st).queue →
        t ∈ st.queue ∨ t.depth = d + 1) ∧
      (t ∈ (processContentBlock_w content d st).queue →
        t ∈ st.queue ∨ t.depth = d + 1)) ∧
    (∀ (oracle : String → Option String) (url : Nat → String) (N k fuel : Nat),
      (∀ i, i < N → plainHttpLine (url i)) →
      (∀ i, i < N → ∀ j, j < N → url i = url j → i = j) →
      (∀ i, i < N - 1 → oracle (url i) = some (url (i + 1))) →
      oracle (url (N - 1)) = some "" →
      githubRawRewrite (url 0) = url 0 →
      0 < N → N < fuel →
      (recursivelyFetchAndExtractConfigs_p oracle (.link [url 0]) k
        fuel).fetched = (List.range (min N k)).map url ∧
      (recursivelyFetchAndExtractConfigs_p oracle (.link [url 0]) k
        fuel).fetched.length = min N k) := by
  refine ⟨?_, ?_, ?_⟩
  · intro oracle k pcb fuel c v f t rest hd
    rw [crawlLoop]
    show (if t.depth ≥ k then _ else _) = _
    rw [if_pos hd]
  · intro content d st t
    exact ⟨processContentBlock_p_queue_depth, processContentBlock_w_queue_depth⟩
  · intro oracle url N k fuel hplain hinj horacle hlast hgh hN hfuel
    have hinit : initState_p (.link [url 0]) = chainState url 0 := by
      show enqueue ⟨[], [], [], []⟩ (githubRawRewrite (url 0)) 0 = _
      rw [hgh]
      unfold enqueue chainState
      rw [if_neg (by simp)]
      rfl
    have hmain := chain_loop oracle url N k hplain hinj horacle hlast fuel 0
      hN (Nat.zero_le _) (by omega)
    unfold recursivelyFetchAndExtractConfigs_p
    rw [hinit]
    refine ⟨hmain, ?_⟩
    rw [hmain]
    simp

/-- Witness for `c3_depth_bound`: a concrete five-link chain crawled with
`maxDepth = 3` fetches exactly the first three links, and a concrete
deep task is dropped without a fetch. -/
theorem c3_depth_bound_witness :
    crawlLoop (fun _ => none) 3 processContentBlock_p 1
        ⟨[], ["https://h/x"], [⟨"https://h/x", 3⟩], []⟩ =
      crawlLoop (fun _ => none) 3 processContentBlock_p 0
        ⟨[], ["https://h/x"], [], []⟩ ∧
    (recursivelyFetchAndExtractConfigs_p
      (fun s =>
        if s = "https://h/0" then some "https://h/1"
        else if s = "https://h/1" then some "https://h/2"
        else if s = "https://h/2" then some "https://h/3"
        else if s = "https://h/3" then some "https://h/4"
        else if s = "https://h/4" then some ""
        else none)
      (.link [(fun i => "https://h/" ++ Nat.repr i) 0]) 3 10).fetched =
      (List.range (min 5 3)).map (fun i => "https://h/" ++ Nat.repr i) :=
  ⟨c3_depth_bound.1 (fun _ => none) 3 processContentBlock_p 0
      [] ["https://h/x"] [] ⟨"https://h/x", 3⟩ [] (by decide),
   (c3_depth_bound.2.2
      (fun s =>
        if s = "https://h/0" then some "https://h/1"
        else if s = "https://h/1" then some "https://h/2"
        else if s = "https://h/2" then some "https://h/3"
        else if s = "https://h/3" then some "https://h/4"
        else if s = "https://h/4" then some ""
        else none)
      (fun i => "https://h/" ++ Nat.repr i) 5 3 10
      (by decide) (by decide) (by decide) (by decide) (by decide)
      (by decide) (by decide)).1⟩

/-! ## Claim C8: base64 round-trips -/

theorem b64Chars_length : b64Chars.length = 64 := by decide

theorem b64Val_b64Char : ∀ n, n < 64 → b64Val (b64Char n) = some n := by decide

theorem b64Char_mem : ∀ n, n < 64 → b64Char n ∈ b64Chars := by decide

theorem b64Chars_props : ∀ c ∈ b64Chars,
    isB64Ws c = false ∧ isJsWs c = false ∧ c ≠ '=' ∧ c ≠ '-' ∧ c ≠ '_' := by
  decide

theorem b64IndexAux_lt (c : Char) :
    ∀ (l : List Char) (i v : Nat), b64IndexAux c l i = some v →
      v < i + l.length := by
  intro l
  induction l with
  | nil => intro i v h; cases h
  | cons x xs ih =>
    intro i v h
    unfold b64IndexAux at h
    split at h
    · cases h
      simp
    · have := ih (i + 1) v h
      simp only [List.length_cons]
      omega

theorem b64Val_lt {c : Char} {v : Nat} (h : b64Val c = some v) : v < 64 := by
  have := b64IndexAux_lt c b64Chars 0 v h
  rw [b64Chars_length] at this
  omega

theorem b64sextets_lt :
    ∀ bs : List Nat, (∀ b ∈ bs, b < 256) → ∀ v ∈ b64sextets bs, v < 64
  | [], _ => by simp [b64sextets]
  | [a], h => by
    have ha := h a (by simp)
    simp only [b64sextets, List.mem_cons, List.not_mem_nil, or_false]
    rintro v (rfl | rfl) <;> omega
  | [a, b], h => by
    have ha := h a (by simp)
    have hb := h b (by simp)
    simp only [b64sextets, List.mem_cons, List.not_mem_nil, or_false]
    rintro v (rfl | rfl | rfl) <;> omega
  | a :: b :: c :: rest, h => by
    have ha := h a (by simp)
    have hb := h b (by simp)
    have hc := h c (by simp)
    have ih := b64sextets_lt rest (fun x hx => h x (by simp [hx]))
    intro v hv
    simp only [b64sextets, List.mem_cons] at hv
    rcases hv with rfl | rfl | rfl | rfl | hv
    · omega
    · omega
    · omega
    · omega
    · exact ih v hv

theorem b64decodeSextets_b64sextets :
    ∀ bs : List Nat, (∀ b ∈ bs, b < 256) →
      b64decodeSextets (b64sextets bs) = bs
  | [], _ => by simp [b64sextets, b64decodeSextets]
  | [a], h => by
    have ha := h a (by simp)
    simp only [b64sextets, b64decodeSextets, List.cons.injEq, and_true]
    omega
  | [a, b], h => by
    have ha := h a (by simp)
    have hb := h b (by simp)
    simp only [b64sextets, b64decodeSextets, List.cons.injEq, and_true]
    omega
  | a :: b :: c :: rest, h => by
    have ha := h a (by simp)
    have hb := h b (by simp)
    have hc := h c (by simp)
    have ih := b64decodeSextets_b64sextets rest (fun x hx => h x (by simp [hx]))
    show b64decodeSextets (_ :: _ :: _ :: _ :: b64sextets rest) = _
    rw [b64decodeSextets, ih]
    have e1 : a / 4 * 4 + (a % 4 * 16 + b / 16) / 16 = a := by omega
    have e2 : (a % 4 * 16 + b / 16) % 16 * 16 + (b % 16 * 4 + c / 64) / 4 = b := by
      omega
    have e3 : (b % 16 * 4 + c / 64) % 4 * 64 + c % 64 = c := by omega
    rw [e1, e2, e3]

theorem b64decodeSextets_lt :
    ∀ sx : List Nat, (∀ v ∈ sx, v < 64) → ∀ b ∈ b64decodeSextets sx, b < 256
  | [], _ => by simp [b64decodeSextets]
  | [a], _ => by simp [b64decodeSextets]
  | [a, b], h => by
    have ha := h a (by simp)
    have hb := h b (by simp)
    simp only [b64decodeSextets, List.mem_singleton]
    rintro x rfl
    omega
  | [a, b, c], h => by
    have ha := h a (by simp)
    have hb := h b (by simp)
    have hc := h c (by simp)
    simp only [b64decodeSextets, List.mem_cons, List.not_mem_nil, or_false]
    rintro x (rfl | rfl) <;> omega
  | a :: b :: c :: d :: rest, h => by
    have ha := h a (by simp)
    have hb := h b (by simp)
    have hc := h c (by simp)
    have hd := h d (by simp)
    have ih := b64decodeSextets_lt rest (fun x hx => h x (by simp [hx]))
    intro x hx
    rw [b64decodeSextets] at hx
    simp only [List.mem_cons] at hx
    rcases hx with rfl | rfl | rfl | hx
    · omega
    · omega
    · omega
    · exact ih x hx

theorem b64pad_add3 (n : Nat) : b64pad (n + 3) = b64pad n := by
  unfold b64pad
  rw [Nat.add_mod_right]

theorem b64_length_mod :
    ∀ bs : List Nat,
      ((b64sextets bs).length + (b64pad bs.length).length) % 4 = 0 ∧
      (b64sextets bs).length % 4 ≠ 1
  | [] => by decide
  | [a] => by simp [b64sextets, b64pad]
  | [a, b] => by simp [b64sextets, b64pad]
  | a :: b :: c :: rest => by
    have ih := b64_length_mod rest
    show ((_ :: _ :: _ :: _ :: b64sextets rest).length +
      (b64pad (rest.length + 3)).length) % 4 = 0 ∧
      (_ :: _ :: _ :: _ :: b64sextets rest).length % 4 ≠ 1
    rw [b64pad_add3]
    simp only [List.length_cons]
    omega

theorem b64encodeBytes_chars {bs : List Nat} (h : ∀ b ∈ bs, b < 256) :
    ∀ c ∈ b64encodeBytes bs, c ∈ b64Chars ∨ c = '=' := by
  intro c hc
  unfold b64encodeBytes at hc
  rcases List.mem_append.mp hc with hm | hm
  · obtain ⟨v, hv, rfl⟩ := List.mem_map.mp hm
    exact Or.inl (b64Char_mem v (b64sextets_lt bs h v hv))
  · right
    unfold b64pad at hm
    split at hm
    · simp only [List.mem_cons, List.not_mem_nil, or_false] at hm
      rcases hm with rfl | rfl <;> rfl
    · split at hm
      · simp only [List.mem_singleton] at hm
        exact hm
      · cases hm

theorem stripTrailingEq_noEq {l : List Char} (h : '=' ∉ l) :
    stripTrailingEq l = l := by
  have h' : '=' ∉ l.reverse := by simpa using h
  unfold stripTrailingEq
  split
  · rename_i rest heq
    exfalso
    apply h'
    rw [heq]
    simp
  · rename_i hmiss heq
    exfalso
    apply h'
    rw [heq]
    simp
  · rfl

theorem stripTrailingEq_append2 (l : List Char) :
    stripTrailingEq (l ++ ['=', '=']) = l := by
  have hrev : (l ++ ['=', '=']).reverse = '=' :: '=' :: l.reverse := by
    rw [List.reverse_append]
    rfl
  unfold stripTrailingEq
  split
  · rename_i rest heq
    rw [hrev] at heq
    injection heq with h1 h2
    injection h2 with h3 h4
    rw [← h4]
    simp
  · rename_i hmiss heq
    exfalso
    rw [hrev] at heq
    injection heq with h1 h2
    exact hmiss l.reverse h2.symm
  · rename_i h1 h2
    exfalso
    exact h1 l.reverse hrev

theorem stripTrailingEq_append1 {l : List Char} (h : '=' ∉ l) :
    stripTrailingEq (l ++ ['=']) = l := by
  have h' : '=' ∉ l.reverse := by simpa using h
  have hrev : (l ++ ['=']).reverse = '=' :: l.reverse := by
    rw [List.reverse_append]
    rfl
  unfold stripTrailingEq
  split
  · rename_i rest heq
    exfalso
    rw [hrev] at heq
    injection heq with h1 h2
    apply h'
    rw [h2]
    simp
  · rename_i hmiss heq
    rw [hrev] at heq
    injection heq with h1 h2
    rw [← h2]
    simp
  · rename_i h1 h2
    exfalso
    exact h2 l.reverse hrev

theorem mapIdentOfForall {α : Type} (f : α → α) :
    ∀ l : List α, (∀ x ∈ l, f x = x) → l.map f = l := by
  intro l
  induction l with
  | nil => intro _; rfl
  | cons x xs ih =>
    intro h
    simp only [List.map_cons, h x (by simp), ih (fun y hy => h y (by simp [hy]))]

/-- `atob` inverts `btoa` on any byte list. -/
theorem atobBytes_b64encodeBytes {bs : List Nat} (h : ∀ b ∈ bs, b < 256) :
    atobBytes (b64encodeBytes bs) = some bs := by
  have hchars := b64encodeBytes_chars h
  have hsxlt := b64sextets_lt bs h
  have hnoEq : '=' ∉ (b64sextets bs).map b64Char := by
    intro hmem
    obtain ⟨v, hv, hve⟩ := List.mem_map.mp hmem
    have := (b64Chars_props _ (b64Char_mem v (hsxlt v hv))).2.2.1
    exact this hve
  unfold atobBytes
  have hfilter : (b64encodeBytes bs).filter (fun c => !isB64Ws c) =
      b64encodeBytes bs := by
    apply List.filter_eq_self.mpr
    intro c hc
    rcases hchars c hc with hm | rfl
    · rw [(b64Chars_props c hm).1]; rfl
    · rfl
  rw [hfilter]
  have hlen := b64_length_mod bs
  have hlen0 : (b64encodeBytes bs).length % 4 = 0 := by
    unfold b64encodeBytes
    rw [List.length_append, List.length_map]
    exact hlen.1
  show atobCore (if (b64encodeBytes bs).length % 4 = 0 then
    stripTrailingEq (b64encodeBytes bs) else b64encodeBytes bs) = some bs
  rw [if_pos hlen0]
  have hstrip : stripTrailingEq (b64encodeBytes bs) =
      (b64sextets bs).map b64Char := by
    unfold b64encodeBytes b64pad
    split
    · exact stripTrailingEq_append2 _
    · split
      · exact stripTrailingEq_append1 hnoEq
      · rw [List.append_nil]
        exact stripTrailingEq_noEq hnoEq
  rw [hstrip]
  unfold atobCore
  rw [if_neg (by rw [List.length_map]; exact hlen.2)]
  rw [if_pos (by
    rw [List.all_eq_true]
    intro c hc
    obtain ⟨v, hv, rfl⟩ := List.mem_map.mp hc
    simp only [decide_eq_true_eq]
    exact b64Char_mem v (hsxlt v hv))]
  rw [List.map_map]
  have hvals : (b64sextets bs).map
      ((fun c => (b64Val c).getD 0) ∘ b64Char) = b64sextets bs := by
    apply mapIdentOfForall
    intro v hv
    show ((b64Val (b64Char v)).getD 0) = v
    rw [b64Val_b64Char v (hsxlt v hv)]
    rfl
  rw [hvals, b64decodeSextets_b64sextets bs h]

theorem atobCore_lt {t : List Char} {bs : List Nat}
    (h : atobCore t = some bs) : ∀ b ∈ bs, b < 256 := by
  unfold atobCore at h
  split at h
  · cases h
  · split at h
    · cases h
      apply b64decodeSextets_lt
      intro v hv
      obtain ⟨c, hc, rfl⟩ := List.mem_map.mp hv
      cases hb : b64Val c with
      | none => simp
      | some w =>
        have := b64Val_lt hb
        simp only [hb, Option.getD_some]
        omega
    · cases h

/-- Bytes produced by a successful `atob` are bytes. -/
theorem atobBytes_lt {s : List Char} {bs : List Nat}
    (h : atobBytes s = some bs) : ∀ b ∈ bs, b < 256 := by
  simp only [atobBytes] at h
  exact atobCore_lt h

theorem char_valid_nat (c : Char) :
    c.toNat < 0xD800 ∨ (0xDFFF < c.toNat ∧ c.toNat < 0x110000) := by
  have h := c.valid
  unfold UInt32.isValidChar Nat.isValidChar at h
  exact h

theorem char_toNat_lt (c : Char) : c.toNat < 0x110000 := by
  rcases char_valid_nat c with h | h <;> omega

theorem utf8EncodeChar_lt {n : Nat} (h : n < 0x110000) :
    ∀ b ∈ utf8EncodeChar n, b < 256 := by
  intro b hb
  unfold utf8EncodeChar at hb
  split at hb
  · simp only [List.mem_singleton] at hb
    omega
  · split at hb
    · simp only [List.mem_cons, List.not_mem_nil, or_false] at hb
      rcases hb with rfl | rfl <;> omega
    · split at hb
      · simp only [List.mem_cons, List.not_mem_nil, or_false] at hb
        rcases hb with rfl | rfl | rfl <;> omega
      · simp only [List.mem_cons, List.not_mem_nil, or_false] at hb
        rcases hb with rfl | rfl | rfl | rfl <;> omega

theorem utf8Encode_lt : ∀ cs : List Char, ∀ b ∈ utf8Encode cs, b < 256
  | [] => by simp [utf8Encode]
  | c :: cs => by
    intro b hb
    rw [utf8Encode] at hb
    rcases List.mem_append.mp hb with hm | hm
    · exact utf8EncodeChar_lt (char_toNat_lt c) b hm
    · exact utf8Encode_lt cs b hm

/-- Unfolding lemma for `utf8DecodeSt`: ASCII byte. -/
theorem utf8DecodeSt_ascii (b : Nat) (rest : List Nat) (h : b < 0x80) :
    utf8DecodeSt (b :: rest) none =
      (utf8DecodeSt rest none).map (Char.ofNat b :: ·) := by
  simp only [utf8DecodeSt]
  rw [if_pos h]

/-- Unfolding lemma for `utf8DecodeSt`: two-byte lead. -/
theorem utf8DecodeSt_lead2 (b : Nat) (rest : List Nat) (h1 : ¬ b < 0x80)
    (h2 : (0xC2 ≤ b && b ≤ 0xDF) = true) :
    utf8DecodeSt (b :: rest) none =
      utf8DecodeSt rest (some (b - 0xC0, 1, 0x80, 0xBF)) := by
  simp only [utf8DecodeSt]
  rw [if_neg h1, if_pos h2]

/-- Unfolding lemma for `utf8DecodeSt`: three-byte lead. -/
theorem utf8DecodeSt_lead3 (b : Nat) (rest : List Nat) (h1 : ¬ b < 0x80)
    (h2 : ¬ ((0xC2 ≤ b && b ≤ 0xDF) = true))
    (h3 : (0xE0 ≤ b && b ≤ 0xEF) = true) :
    utf8DecodeSt (b :: rest) none =
      utf8DecodeSt rest (some (b - 0xE0, 2,
        if b = 0xE0 then 0xA0 else 0x80, if b = 0xED then 0x9F else 0xBF)) := by
  simp only [utf8DecodeSt]
  rw [if_neg h1, if_neg h2, if_pos h3]

/-- Unfolding lemma for `utf8DecodeSt`: four-byte lead. -/
theorem utf8DecodeSt_lead4 (b : Nat) (rest : List Nat) (h1 : ¬ b < 0x80)
    (h2 : ¬ ((0xC2 ≤ b && b ≤ 0xDF) = true))
    (h3 : ¬ ((0xE0 ≤ b && b ≤ 0xEF) = true))
    (h4 : (0xF0 ≤ b && b ≤ 0xF4) = true) :
    utf8DecodeSt (b :: rest) none =
      utf8DecodeSt rest (some (b - 0xF0, 3,
        if b = 0xF0 then 0x90 else 0x80, if b = 0xF4 then 0x8F else 0xBF)) := by
  simp only [utf8DecodeSt]
  rw [if_neg h1, if_neg h2, if_neg h3, if_pos h4]

/-- Unfolding lemma for `utf8DecodeSt`: final continuation byte. -/
theorem utf8DecodeSt_last (b cp lo hi : Nat) (rest : List Nat)
    (hr : (lo ≤ b && b ≤ hi) = true) :
    utf8DecodeSt (b :: rest) (some (cp, 1, lo, hi)) =
      (utf8DecodeSt rest none).map (Char.ofNat (cp * 64 + (b - 0x80)) :: ·) := by
  simp only [utf8DecodeSt]
  rw [if_pos hr, if_pos (Nat.le_refl 1)]

/-- Unfolding lemma for `utf8DecodeSt`: continuation byte with two left. -/
theorem utf8DecodeSt_cont2 (b cp lo hi : Nat) (rest : List Nat)
    (hr : (lo ≤ b && b ≤ hi) = true) :
    utf8DecodeSt (b :: rest) (some (cp, 2, lo, hi)) =
      utf8DecodeSt rest (some (cp * 64 + (b - 0x80), 1, 0x80, 0xBF)) := by
  simp only [utf8DecodeSt]
  rw [if_pos hr, if_neg (by omega : ¬ (2 : Nat) ≤ 1)]

/-- Unfolding lemma for `utf8DecodeSt`: continuation byte with three left. -/
theorem utf8DecodeSt_cont3 (b cp lo hi : Nat) (rest : List Nat)
    (hr : (lo ≤ b && b ≤ hi) = true) :
    utf8DecodeSt (b :: rest) (some (cp, 3, lo, hi)) =
      utf8DecodeSt rest (some (cp * 64 + (b - 0x80), 2, 0x80, 0xBF)) := by
  simp only [utf8DecodeSt]
  rw [if_pos hr, if_neg (by omega : ¬ (3 : Nat) ≤ 1)]

/-- Decoding one UTF-8-encoded character from the front of a byte
stream. -/
theorem utf8Decode_encodeChar (c : Char) (rest : List Nat) :
    utf8Decode (utf8EncodeChar c.toNat ++ rest) =
      (utf8Decode rest).map (c :: ·) := by
  have hv := char_valid_nat c
  set n := c.toNat with hn
  have hofn : Char.ofNat n = c := by rw [hn]; exact Char.ofNat_toNat c
  simp only [utf8Decode]
  by_cases h1 : n < 0x80
  · have henc : utf8EncodeChar n = [n] := by
      unfold utf8EncodeChar
      rw [if_pos h1]
    rw [henc]
    show utf8DecodeSt (n :: rest) none = _
    rw [utf8DecodeSt_ascii _ _ h1, hofn]
  · by_cases h2 : n < 0x800
    · have henc : utf8EncodeChar n = [0xC0 + n / 64, 0x80 + n % 64] := by
        unfold utf8EncodeChar
        rw [if_neg h1, if_pos h2]
      rw [henc]
      show utf8DecodeSt ((0xC0 + n / 64) :: (0x80 + n % 64) :: rest) none = _
      have hb1 : ¬ (0xC0 + n / 64 < 0x80) := by omega
      have hb2 : (0xC2 ≤ 0xC0 + n / 64 && 0xC0 + n / 64 ≤ 0xDF) = true := by
        simp only [Bool.and_eq_true, decide_eq_true_eq]
        omega
      have hr1 : (0x80 ≤ 0x80 + n % 64 && 0x80 + n % 64 ≤ 0xBF) = true := by
        simp only [Bool.and_eq_true, decide_eq_true_eq]
        omega
      rw [utf8DecodeSt_lead2 _ _ hb1 hb2, utf8DecodeSt_last _ _ _ _ _ hr1]
      have harg : (0xC0 + n / 64 - 0xC0) * 64 + (0x80 + n % 64 - 0x80) = n := by
        omega
      rw [harg, hofn]
    · by_cases h3 : n < 0x10000
      · have henc : utf8EncodeChar n =
            [0xE0 + n / 4096, 0x80 + n / 64 % 64, 0x80 + n % 64] := by
          unfold utf8EncodeChar
          rw [if_neg h1, if_neg h2, if_pos h3]
        rw [henc]
        show utf8DecodeSt ((0xE0 + n / 4096) :: (0x80 + n / 64 % 64) ::
          (0x80 + n % 64) :: rest) none = _
        have hb1 : ¬ (0xE0 + n / 4096 < 0x80) := by omega
        have hb2 : ¬ ((0xC2 ≤ 0xE0 + n / 4096 && 0xE0 + n / 4096 ≤ 0xDF) =
            true) := by
          simp only [Bool.and_eq_true, decide_eq_true_eq]
          omega
        have hb3 : (0xE0 ≤ 0xE0 + n / 4096 && 0xE0 + n / 4096 ≤ 0xEF) =
            true := by
          simp only [Bool.and_eq_true, decide_eq_true_eq]
          omega
        have hr1 : ((if 0xE0 + n / 4096 = 0xE0 then 0xA0 else 0x80) ≤
            0x80 + n / 64 % 64 &&
            0x80 + n / 64 % 64 ≤
              (if 0xE0 + n / 4096 = 0xED then 0x9F else 0xBF)) = true := by
          by_cases hE : 0xE0 + n / 4096 = 0xE0
          · rw [if_pos hE, if_neg (by omega : ¬ 0xE0 + n / 4096 = 0xED)]
            simp only [Bool.and_eq_true, decide_eq_true_eq]
            omega
          · by_cases hD : 0xE0 + n / 4096 = 0xED
            · rw [if_neg hE, if_pos hD]
              simp only [Bool.and_eq_true, decide_eq_true_eq]
              rcases hv with hv | hv <;> omega
            · rw [if_neg hE, if_neg hD]
              simp only [Bool.and_eq_true, decide_eq_true_eq]
              omega
        have hr2 : (0x80 ≤ 0x80 + n % 64 && 0x80 + n % 64 ≤ 0xBF) = true := by
          simp only [Bool.and_eq_true, decide_eq_true_eq]
          omega
        rw [utf8DecodeSt_lead3 _ _ hb1 hb2 hb3,
          utf8DecodeSt_cont2 _ _ _ _ _ hr1, utf8DecodeSt_last _ _ _ _ _ hr2]
        have harg : ((0xE0 + n / 4096 - 0xE0) * 64 +
            (0x80 + n / 64 % 64 - 0x80)) * 64 + (0x80 + n % 64 - 0x80) = n := by
          omega
        rw [harg, hofn]
      · have h4 : n < 0x110000 := by
          rcases hv with hv | hv <;> omega
        have henc : utf8EncodeChar n =
            [0xF0 + n / 262144, 0x80 + n / 4096 % 64, 0x80 + n / 64 % 64,
             0x80 + n % 64] := by
          unfold utf8EncodeChar
          rw [if_neg h1, if_neg h2, if_neg h3]
        rw [henc]
        show utf8DecodeSt ((0xF0 + n / 262144) :: (0x80 + n / 4096 % 64) ::
          (0x80 + n / 64 % 64) :: (0x80 + n % 64) :: rest) none = _
        have hb1 : ¬ (0xF0 + n / 262144 < 0x80) := by omega
        have hb2 : ¬ ((0xC2 ≤ 0xF0 + n / 262144 && 0xF0 + n / 262144 ≤ 0xDF) =
            true) := by
          simp only [Bool.and_eq_true, decide_eq_true_eq]
          omega
        have hb3 : ¬ ((0xE0 ≤ 0xF0 + n / 262144 && 0xF0 + n / 262144 ≤ 0xEF) =
            true) := by
          simp only [Bool.and_eq_true, decide_eq_true_eq]
          omega
        have hb4 : (0xF0 ≤ 0xF0 + n / 262144 && 0xF0 + n / 262144 ≤ 0xF4) =
            true := by
          simp only [Bool.and_eq_true, decide_eq_true_eq]
          omega
        have hr1 : ((if 0xF0 + n / 262144 = 0xF0 then 0x90 else 0x80) ≤
            0x80 + n / 4096 % 64 &&
            0x80 + n / 4096 % 64 ≤
              (if 0xF0 + n / 262144 = 0xF4 then 0x8F else 0xBF)) = true := by
          by_cases hF : 0xF0 + n / 262144 = 0xF0
          · rw [if_pos hF, if_neg (by omega : ¬ 0xF0 + n / 262144 = 0xF4)]
            simp only [Bool.and_eq_true, decide_eq_true_eq]
            omega
          · by_cases hG : 0xF0 + n / 262144 = 0xF4
            · rw [if_neg hF, if_pos hG]
              simp only [Bool.and_eq_true, decide_eq_true_eq]
              omega
            · rw [if_neg hF, if_neg hG]
              simp only [Bool.and_eq_true, decide_eq_true_eq]
              omega
        have hr2 : (0x80 ≤ 0x80 + n / 64 % 64 && 0x80 + n / 64 % 64 ≤ 0xBF) =
            true := by
          simp only [Bool.and_eq_true, decide_eq_true_eq]
          omega
        have hr3 : (0x80 ≤ 0x80 + n % 64 && 0x80 + n % 64 ≤ 0xBF) = true := by
          simp only [Bool.and_eq_true, decide_eq_true_eq]
          omega
        rw [utf8DecodeSt_lead4 _ _ hb1 hb2 hb3 hb4,
          utf8DecodeSt_cont3 _ _ _ _ _ hr1, utf8DecodeSt_cont2 _ _ _ _ _ hr2,
          utf8DecodeSt_last _ _ _ _ _ hr3]
        have harg : (((0xF0 + n / 262144 - 0xF0) * 64 +
            (0x80 + n / 4096 % 64 - 0x80)) * 64 +
            (0x80 + n / 64 % 64 - 0x80)) * 64 + (0x80 + n % 64 - 0x80) = n := by
          omega
        rw [harg, hofn]

/-- UTF-8 decoding inverts UTF-8 encoding. -/
theorem utf8Decode_utf8Encode : ∀ cs : List Char,
    utf8Decode (utf8Encode cs) = some cs
  | [] => rfl
  | c :: cs => by
    rw [utf8Encode, utf8Decode_encodeChar, utf8Decode_utf8Encode cs]
    rfl

theorem b64encodeBytes_len_mod (bs : List Nat) :
    (b64encodeBytes bs).length % 4 = 0 := by
  unfold b64encodeBytes
  rw [List.length_append, List.length_map]
  exact (b64_length_mod bs).1

theorem dropWhileFalse (p : Char → Bool) :
    ∀ l : List Char, (∀ c ∈ l, p c = false) → l.dropWhile p = l
  | [], _ => rfl
  | x :: xs, h => by
    have hx : p x = false := h x (by simp)
    simp [List.dropWhile, hx]

theorem jsTrimList_eq_self {l : List Char}
    (h : ∀ c ∈ l, isJsWs c = false) : jsTrimList l = l := by
  unfold jsTrimList
  rw [dropWhileFalse _ _ h]
  rw [dropWhileFalse _ _ (fun c hc => h c (List.mem_reverse.mp hc))]
  rw [List.reverse_reverse]

theorem utf8EncodeChar_ne_nil (n : Nat) : utf8EncodeChar n ≠ [] := by
  unfold utf8EncodeChar
  split
  · simp
  · split
    · simp
    · split <;> simp

theorem utf8Encode_ne_nil : ∀ {l : List Char}, l ≠ [] → utf8Encode l ≠ []
  | [], h => absurd rfl h
  | c :: cs, _ => by
    rw [utf8Encode]
    intro hq
    rcases List.append_eq_nil.mp hq with ⟨h1, _⟩
    exact utf8EncodeChar_ne_nil _ h1

theorem b64encodeBytes_ne_nil : ∀ bs : List Nat, bs ≠ [] → b64encodeBytes bs ≠ []
  | [], h => absurd rfl h
  | [a], _ => by simp [b64encodeBytes, b64sextets]
  | [a, b], _ => by simp [b64encodeBytes, b64sextets]
  | a :: b :: c :: rest, _ => by simp [b64encodeBytes, b64sextets]

theorem stringData_ne_nil {s : String} (h : s ≠ "") : s.data ≠ [] := by
  intro hd
  apply h
  cases s with
  | mk d =>
    cases hd
    rfl

theorem js_encodeBase64_chars (s : String) :
    ∀ c ∈ b64encodeBytes (utf8Encode s.data), c ∈ b64Chars ∨ c = '=' :=
  b64encodeBytes_chars (utf8Encode_lt s.data)

/-- `js_decodeBase64` of `part_000` inverts `js_encodeBase64`. -/
theorem js_decodeBase64_p_encode (s : String) :
    js_decodeBase64_p (js_encodeBase64 s) = some s := by
  have hbytes : ∀ b ∈ utf8Encode s.data, b < 256 := utf8Encode_lt s.data
  have hchars := b64encodeBytes_chars hbytes
  have hmap1 : (b64encodeBytes (utf8Encode s.data)).map
      (fun c => if c = '-' then '+' else c) =
      b64encodeBytes (utf8Encode s.data) := by
    apply mapIdentOfForall
    intro x hx
    rcases hchars x hx with hm | rfl
    · rw [if_neg (b64Chars_props x hm).2.2.2.1]
    · rfl
  have hmap2 : (b64encodeBytes (utf8Encode s.data)).map
      (fun c => if c = '_' then '/' else c) =
      b64encodeBytes (utf8Encode s.data) := by
    apply mapIdentOfForall
    intro x hx
    rcases hchars x hx with hm | rfl
    · rw [if_neg (b64Chars_props x hm).2.2.2.2]
    · rfl
  simp only [js_decodeBase64_p, js_encodeBase64]
  rw [hmap1, hmap2, atobBytes_b64encodeBytes hbytes]
  show (utf8Decode (utf8Encode s.data)).map String.mk = some s
  rw [utf8Decode_utf8Encode s.data]
  rfl

/-- `js_decodeBase64` of `worker.js` inverts `js_encodeBase64`. -/
theorem js_decodeBase64_w_encode (s : String) :
    js_decodeBase64_w (js_encodeBase64 s) = some s := by
  have hbytes : ∀ b ∈ utf8Encode s.data, b < 256 := utf8Encode_lt s.data
  have hc0 : ¬ ((b64encodeBytes (utf8Encode s.data)).length % 4 ≠ 0) :=
    fun hne => hne (b64encodeBytes_len_mod _)
  simp only [js_decodeBase64_w, js_encodeBase64]
  rw [if_neg hc0, atobBytes_b64encodeBytes hbytes]
  show (utf8Decode (utf8Encode s.data)).map String.mk = some s
  rw [utf8Decode_utf8Encode s.data]
  rfl

theorem js_encodeBase64_noWs (s : String) :
    ∀ x ∈ b64encodeBytes (utf8Encode s.data), isJsWs x = false := by
  intro x hx
  rcases js_encodeBase64_chars s x hx with hm | rfl
  · exact (b64Chars_props x hm).2.1
  · decide

/-- `js_isBase64` of `worker.js` accepts every encoding of a non-empty
string. -/
theorem js_isBase64_w_encode (s : String) (h : s ≠ "") :
    js_isBase64_w (js_encodeBase64 s) = true := by
  have hbytes : ∀ b ∈ utf8Encode s.data, b < 256 := utf8Encode_lt s.data
  have htrim : jsTrimList (b64encodeBytes (utf8Encode s.data)) =
      b64encodeBytes (utf8Encode s.data) :=
    jsTrimList_eq_self (js_encodeBase64_noWs s)
  have hne : b64encodeBytes (utf8Encode s.data) ≠ [] :=
    b64encodeBytes_ne_nil _ (utf8Encode_ne_nil (stringData_ne_nil h))
  have hc0 : ¬ ((b64encodeBytes (utf8Encode s.data)).length % 4 ≠ 0) :=
    fun hne2 => hne2 (b64encodeBytes_len_mod _)
  simp only [js_isBase64_w, js_encodeBase64]
  rw [htrim, if_neg hne, if_neg hc0, atobBytes_b64encodeBytes hbytes]
  rfl

/-- `js_isBase64` of `part_000` accepts every encoding of a non-empty
string. -/
theorem js_isBase64_p_encode (s : String) (h : s ≠ "") :
    js_isBase64_p (js_encodeBase64 s) = true := by
  have hbytes : ∀ b ∈ utf8Encode s.data, b < 256 := utf8Encode_lt s.data
  have htrim : jsTrimList (b64encodeBytes (utf8Encode s.data)) =
      b64encodeBytes (utf8Encode s.data) :=
    jsTrimList_eq_self (js_encodeBase64_noWs s)
  have hne : b64encodeBytes (utf8Encode s.data) ≠ [] :=
    b64encodeBytes_ne_nil _ (utf8Encode_ne_nil (stringData_ne_nil h))
  simp only [js_isBase64_p, js_encodeBase64]
  simp only [htrim]
  rw [if_neg hne, atobBytes_b64encodeBytes hbytes]
  show decide (b64encodeBytes (utf8Encode s.data) =
    b64encodeBytes (utf8Encode s.data)) = true
  exact decide_eq_true rfl

/-- `js_isBase64` of `part_000` rejects every line whose trimmed content
retains a character outside the base64 alphabet and `=`. -/
theorem js_isBase64_p_badchar (u : String) (c : Char)
    (hc : c ∈ jsTrimList u.data) (hcb : c ∉ b64Chars) (hce : c ≠ '=') :
    js_isBase64_p u = false := by
  simp only [js_isBase64_p]
  by_cases h0 : jsTrimList u.data = []
  · exact absurd hc (h0 ▸ List.not_mem_nil c)
  · rw [if_neg h0]
    cases hab : atobBytes (jsTrimList u.data) with
    | none => rfl
    | some bs =>
      show decide (b64encodeBytes bs = jsTrimList u.data) = false
      rw [decide_eq_false_iff_not]
      intro heq
      have hlt := atobBytes_lt hab
      rcases b64encodeBytes_chars hlt c (by rw [heq]; exact hc) with hm | he
      · exact hcb hm
      · exact hce he

/-- C8 counterexample: the claim fails as stated.  Both revisions'
`isLikelyEncoded` return `false` on `encode("")` (the empty string is
rejected after trimming), and the round-trip-exact variant of `part_000`
returns `true` on `" QQ== "` even though it contains spaces, which lie
outside the base64 alphabet, because the line is trimmed first. -/
theorem c8_counterexample :
    js_isBase64_w (js_encodeBase64 "") = false ∧
    js_isBase64_p (js_encodeBase64 "") = false ∧
    js_isBase64_p " QQ== " = true ∧
    ' ' ∈ (" QQ== " : String).data ∧ ' ' ∉ b64Chars ∧ ' ' ≠ '=' := by
  decide

/-- C8 (amended): for every string `s`, `decode(encode(s)) = s` in both
revisions; for every non-empty `s`, `isLikelyEncoded(encode(s))` is true
in both revisions; and the round-trip-exact variant of `part_000`
returns `false` for every line whose TRIMMED content retains a character
outside the base64 alphabet `[A-Za-z0-9+/=]` (leading and trailing
whitespace is trimmed away first, so it does not cause rejection). -/
theorem c8_base64_roundtrip (s u : String) (hs : s ≠ "") (c : Char)
    (hc : c ∈ jsTrimList u.data) (hcb : c ∉ b64Chars) (hce : c ≠ '=') :
    js_decodeBase64_w (js_encodeBase64 s) = some s ∧
    js_decodeBase64_p (js_encodeBase64 s) = some s ∧
    js_isBase64_w (js_encodeBase64 s) = true ∧
    js_isBase64_p (js_encodeBase64 s) = true ∧
    js_isBase64_p u = false :=
  ⟨js_decodeBase64_w_encode s, js_decodeBase64_p_encode s,
   js_isBase64_w_encode s hs, js_isBase64_p_encode s hs,
   js_isBase64_p_badchar u c hc hcb hce⟩

/-! ## Claim C1: the two-pass quota allocator (modelled from the spec) -/

/-- Pass 1 as a closed form: the folded state appends, per entry in
order, `take quota` of the bucket for positive quotas, and keeps the
bucket (full for quota 0, the remainder otherwise) in the second
component. -/
theorem passOne_eq :
    ∀ (z : List (ProtocolPriorityEntry × List String))
      (acc : List String × List (List String)),
      z.foldl
        (fun acc eb =>
          if eb.1.quota > 0 then
            (acc.1 ++ eb.2.take eb.1.quota, acc.2 ++ [eb.2.drop eb.1.quota])
          else (acc.1, acc.2 ++ [eb.2]))
        acc =
      (acc.1 ++ (z.map (fun eb =>
          if eb.1.quota > 0 then eb.2.take eb.1.quota else [])).flatten,
       acc.2 ++ z.map (fun eb =>
          if eb.1.quota > 0 then eb.2.drop eb.1.quota else eb.2))
  | [], acc => by simp
  | eb :: z, acc => by
    simp only [List.foldl_cons, List.map_cons, List.flatten_cons]
    rw [passOne_eq z _]
    by_cases h : eb.1.quota > 0
    · simp [h, List.append_assoc]
    · simp [h, List.append_assoc]

/-- Pass 2 as a closed form: append, per entry in order, the full bucket
of every quota-0 entry. -/
theorem passTwo_eq :
    ∀ (z : List (ProtocolPriorityEntry × List String)) (acc : List String),
      z.foldl (fun acc eb => if eb.1.quota = 0 then acc ++ eb.2 else acc) acc =
      acc ++ (z.map (fun eb => if eb.1.quota = 0 then eb.2 else [])).flatten
  | [], acc => by simp
  | eb :: z, acc => by
    simp only [List.foldl_cons, List.map_cons, List.flatten_cons]
    rw [passTwo_eq z _]
    by_cases h : eb.1.quota = 0
    · simp [h, List.append_assoc]
    · simp [h]

/-- Pass 1 leaves the buckets of quota-0 entries untouched, so Pass 2
sees their original contents. -/
theorem passTwo_after_passOne :
    ∀ (pl : List ProtocolPriorityEntry) (bs : List (List String)),
      (pl.zip ((pl.zip bs).map (fun eb =>
        if eb.1.quota > 0 then eb.2.drop eb.1.quota else eb.2))).map
        (fun eb => if eb.1.quota = 0 then eb.2 else []) =
      (pl.zip bs).map (fun eb => if eb.1.quota = 0 then eb.2 else [])
  | [], _ => rfl
  | _ :: _, [] => rfl
  | e :: pl, b :: bs => by
    simp only [List.zip_cons_cons, List.map_cons]
    rw [passTwo_after_passOne pl bs]
    by_cases h : e.quota = 0
    · have h2 : ¬ e.quota > 0 := by omega
      simp [h, h2]
    · simp [h]

/-- The allocator in closed form: quota-capped groups in priority order,
then the full buckets of the quota-0 groups in the same order, truncated
to `globalCap` only when it is positive. -/
theorem allocate_eq (configs : List String) (pl : List ProtocolPriorityEntry)
    (cap : Nat) :
    allocate configs pl cap =
      (let r :=
        ((pl.zip (groupBuckets pl configs)).map (fun eb =>
            if eb.1.quota > 0 then eb.2.take eb.1.quota else [])).flatten ++
        ((pl.zip (groupBuckets pl configs)).map (fun eb =>
            if eb.1.quota = 0 then eb.2 else [])).flatten
       if cap > 0 then r.take cap else r) := by
  unfold allocate passOne passTwo
  simp only []
  rw [passOne_eq, passTwo_eq]
  simp only [List.nil_append]
  rw [passTwo_after_passOne]

/-- C1 (modelled from the spec — the allocator is absent from the two
`src/` revisions): allocation is the two-pass scheme — Pass 1 takes up
to `quota` lines from each positive-quota group in priority-list order,
Pass 2 appends all remaining lines of each quota-0 group in the same
order, and the result is truncated to `globalCap` only when
`globalCap > 0`.  On any shuffle of the claim's concrete input with
priority `[(vless, 1), (trojan, 0), (ss, 0)]` and cap `0`, the output is
the first vless line of the shuffled order, then all trojan lines, then
all ss lines, with total length 6. -/
theorem c1_quota_allocation (configs : List String)
    (pl : List ProtocolPriorityEntry) (cap : Nat) (cfgs : List String)
    (hperm : cfgs.Perm ["vless://v1", "vless://v2", "vless://v3",
      "trojan://t1", "trojan://t2", "ss://s1", "ss://s2", "ss://s3"]) :
    (allocate configs pl cap =
      (let r :=
        ((pl.zip (groupBuckets pl configs)).map (fun eb =>
            if eb.1.quota > 0 then eb.2.take eb.1.quota else [])).flatten ++
        ((pl.zip (groupBuckets pl configs)).map (fun eb =>
            if eb.1.quota = 0 then eb.2 else [])).flatten
       if cap > 0 then r.take cap else r)) ∧
    (allocate cfgs
      [⟨["vless"], 1⟩, ⟨["trojan"], 0⟩, ⟨["ss"], 0⟩] 0 =
      (cfgs.filter (fun l => groupIdxOf
        [⟨["vless"], 1⟩, ⟨["trojan"], 0⟩, ⟨["ss"], 0⟩] l = some 0)).take 1 ++
      (cfgs.filter (fun l => groupIdxOf
        [⟨["vless"], 1⟩, ⟨["trojan"], 0⟩, ⟨["ss"], 0⟩] l = some 1) ++
       cfgs.filter (fun l => groupIdxOf
        [⟨["vless"], 1⟩, ⟨["trojan"], 0⟩, ⟨["ss"], 0⟩] l = some 2))) ∧
    (allocate cfgs
      [⟨["vless"], 1⟩, ⟨["trojan"], 0⟩, ⟨["ss"], 0⟩] 0).length = 6 := by
  refine ⟨allocate_eq configs pl cap, rfl, ?_⟩
  have hc : allocate cfgs
      [⟨["vless"], 1⟩, ⟨["trojan"], 0⟩, ⟨["ss"], 0⟩] 0 =
      (cfgs.filter (fun l => groupIdxOf
        [⟨["vless"], 1⟩, ⟨["trojan"], 0⟩, ⟨["ss"], 0⟩] l = some 0)).take 1 ++
      (cfgs.filter (fun l => groupIdxOf
        [⟨["vless"], 1⟩, ⟨["trojan"], 0⟩, ⟨["ss"], 0⟩] l = some 1) ++
       cfgs.filter (fun l => groupIdxOf
        [⟨["vless"], 1⟩, ⟨["trojan"], 0⟩, ⟨["ss"], 0⟩] l = some 2)) := rfl
  rw [hc]
  have l0 := (hperm.filter (fun l => decide (groupIdxOf
    [⟨["vless"], 1⟩, ⟨["trojan"], 0⟩, ⟨["ss"], 0⟩] l = some 0))).length_eq
  have l1 := (hperm.filter (fun l => decide (groupIdxOf
    [⟨["vless"], 1⟩, ⟨["trojan"], 0⟩, ⟨["ss"], 0⟩] l = some 1))).length_eq
  have l2 := (hperm.filter (fun l => decide (groupIdxOf
    [⟨["vless"], 1⟩, ⟨["trojan"], 0⟩, ⟨["ss"], 0⟩] l = some 2))).length_eq
  simp only [List.length_append, List.length_take]
  rw [l0, l1, l2]
  decide

/-- Witness for C1 at the identity shuffle of the claim's concrete
input: six lines come out. -/
theorem c1_quota_allocation_witness :
    (allocate ["vless://v1", "vless://v2", "vless://v3",
      "trojan://t1", "trojan://t2", "ss://s1", "ss://s2", "ss://s3"]
      [⟨["vless"], 1⟩, ⟨["trojan"], 0⟩, ⟨["ss"], 0⟩] 0).length = 6 :=
  (c1_quota_allocation [] [] 0
    ["vless://v1", "vless://v2", "vless://v3",
     "trojan://t1", "trojan://t2", "ss://s1", "ss://s2", "ss://s3"]
    (List.Perm.refl _)).2.2

/-! ## Claim C7: the Cloudflare edge-domain filter -/

theorem keepFold_mem (p : String → Bool) :
    ∀ (xs acc : List String) (y : String),
      (y ∈ xs.foldl (fun a x => if p x then setAdd a x else a) acc) ↔
        (y ∈ acc ∨ (y ∈ xs ∧ p y = true))
  | [], acc, y => by simp
  | x :: xs, acc, y => by
    simp only [List.foldl_cons]
    rw [keepFold_mem p xs _ y]
    by_cases hp : p x = true
    · rw [if_pos hp, setAdd_mem]
      constructor
      · rintro ((hy | rfl) | ⟨hxs, hpy⟩)
        · exact Or.inl hy
        · exact Or.inr ⟨List.mem_cons_self _ _, hp⟩
        · exact Or.inr ⟨List.mem_cons_of_mem x hxs, hpy⟩
      · rintro (hy | ⟨hmem, hpy⟩)
        · exact Or.inl (Or.inl hy)
        · rcases List.mem_cons.mp hmem with rfl | hxs
          · exact Or.inl (Or.inr rfl)
          · exact Or.inr ⟨hxs, hpy⟩
    · rw [if_neg hp]
      constructor
      · rintro (hy | ⟨hxs, hpy⟩)
        · exact Or.inl hy
        · exact Or.inr ⟨List.mem_cons_of_mem x hxs, hpy⟩
      · rintro (hy | ⟨hmem, hpy⟩)
        · exact Or.inl hy
        · rcases List.mem_cons.mp hmem with rfl | hxs
          · exact absurd hpy hp
          · exact Or.inr ⟨hxs, hpy⟩

/-- Membership in the worker.js classifier output. -/
theorem identifyCf_w_mem (lines : List String) (l : String) :
    l ∈ js_identifyCloudflareDomains_w lines ↔
      l ∈ lines ∧ keepLine_w l = true := by
  unfold js_identifyCloudflareDomains_w
  rw [keepFold_mem keepLine_w lines [] l]
  simp

/-- Membership in the part_000 classifier output. -/
theorem identifyCf_p_mem (lines : List String) (l : String) :
    l ∈ js_identifyCloudflareDomains_p lines ↔
      l ∈ lines ∧ keepLine_p l = true := by
  unfold js_identifyCloudflareDomains_p
  rw [keepFold_mem keepLine_p lines [] l]
  simp

/-- When every collected candidate is a string, the final scan is exactly
an existence check over the candidates. -/
theorem checkDomains_all_some :
    ∀ cands : List (Option String), (∀ x ∈ cands, x.isSome = true) →
      (checkDomains cands = true ↔
        ∃ d, some d ∈ cands ∧ domainMatches d = true)
  | [], _ => by simp [checkDomains]
  | some d :: rest, h => by
    show (if domainMatches d = true then true else checkDomains rest) = true ↔ _
    by_cases hd : domainMatches d = true
    · rw [if_pos hd]
      simp only [true_iff]
      exact ⟨d, List.mem_cons_self _ _, hd⟩
    · rw [if_neg hd]
      rw [checkDomains_all_some rest (fun x hx => h x (List.mem_cons_of_mem _ hx))]
      constructor
      · rintro ⟨e, he, hme⟩
        exact ⟨e, List.mem_cons_of_mem _ he, hme⟩
      · rintro ⟨e, he, hme⟩
        rcases List.mem_cons.mp he with heq | hrest
        · injection heq with h2
          subst h2
          exact absurd hme hd
        · exact ⟨e, hrest, hme⟩
  | none :: rest, h => by
    have h0 := h none (List.mem_cons_self _ _)
    simp at h0

/-- C7 counterexample: the claim's candidate enumeration includes the
payload `server` field for both `vmess` and `ss`, but worker.js consults
`server` only for `ss`.  A `vmess` line whose decoded JSON payload has a
`.workers.dev` host only in its `server` field is dropped by worker.js
even though a candidate in the claim's enumeration matches; part_000
keeps it.  The payload `eyJzZXJ2ZXIiOiJhLndvcmtlcnMuZGV2In0=` decodes to
the JSON object with single field `server = "a.workers.dev"`. -/
theorem c7_counterexample :
    js_identifyCloudflareDomains_w
      ["vmess://eyJzZXJ2ZXIiOiJhLndvcmtlcnMuZGV2In0="] = [] ∧
    js_identifyCloudflareDomains_p
      ["vmess://eyJzZXJ2ZXIiOiJhLndvcmtlcnMuZGV2In0="] =
      ["vmess://eyJzZXJ2ZXIiOiJhLndvcmtlcnMuZGV2In0="] ∧
    js_decodeBase64_w "eyJzZXJ2ZXIiOiJhLndvcmtlcnMuZGV2In0=" =
      some "\x7b\"server\":\"a.workers.dev\"\x7d" ∧
    domainMatches "a.workers.dev" = true := by
  decide

/-- C7 (amended): a line is in the classifier output iff it is an input
line accepted by the per-line keep decision; when every collected
candidate is a string, the keep decision is exactly "some candidate,
with any trailing `:port` stripped and compared case-insensitively, ends
with `.workers.dev` or `.pages.dev`"; the claim's two concrete examples
hold in both revisions.  The candidate enumeration differs from the
claim for worker.js: the payload `server` field is consulted only for
`ss`-scheme lines, not for `vmess` (part_000 consults it for both), as
the final conjunct shows on a concrete `vmess` line. -/
theorem c7_cloudflare_keep (lines : List String) (l : String) :
    (l ∈ js_identifyCloudflareDomains_w lines ↔
      l ∈ lines ∧ keepLine_w l = true) ∧
    (l ∈ js_identifyCloudflareDomains_p lines ↔
      l ∈ lines ∧ keepLine_p l = true) ∧
    (∀ cands : List (Option String), (∀ x ∈ cands, x.isSome = true) →
      (checkDomains cands = true ↔
        ∃ d, some d ∈ cands ∧ domainMatches d = true)) ∧
    (keepLine_w "vless://uuid@foo.workers.dev:443?sni=bar.pages.dev" = true ∧
     keepLine_p "vless://uuid@foo.workers.dev:443?sni=bar.pages.dev" = true) ∧
    (keepLine_w "vless://uuid@example.com:443?type=ws" = false ∧
     keepLine_p "vless://uuid@example.com:443?type=ws" = false) ∧
    (keepLine_w "vmess://eyJzZXJ2ZXIiOiJhLndvcmtlcnMuZGV2In0=" = false ∧
     keepLine_p "vmess://eyJzZXJ2ZXIiOiJhLndvcmtlcnMuZGV2In0=" = true) :=
  ⟨identifyCf_w_mem lines l, identifyCf_p_mem lines l, checkDomains_all_some,
   ⟨by decide, by decide⟩, ⟨by decide, by decide⟩, ⟨by decide, by decide⟩⟩

/-- Witness for C8 at `s = "hello"`, `u = "QQ =="`, `c = ' '`. -/
theorem c8_base64_roundtrip_witness :
    (("hello" : String) ≠ "" ∧ ' ' ∈ jsTrimList ("QQ ==" : String).data ∧
     ' ' ∉ b64Chars ∧ ' ' ≠ '=') ∧
    (js_decodeBase64_w (js_encodeBase64 "hello") = some "hello" ∧
     js_decodeBase64_p (js_encodeBase64 "hello") = some "hello" ∧
     js_isBase64_w (js_encodeBase64 "hello") = true ∧
     js_isBase64_p (js_encodeBase64 "hello") = true ∧
     js_isBase64_p "QQ ==" = false) :=
  ⟨⟨by decide, by decide, by decide, by decide⟩,
   c8_base64_roundtrip "hello" "QQ ==" (by decide) ' ' (by decide) (by decide)
     (by decide)⟩

end SubCfg
